import Mathlib

/-!
A verification development for the cylc-flow workflow data-store manager
(`cylc/flow/data_store_mgr.py`).  The Python module maintains an
authoritative store of protobuf entities (tasks, families, their per-cycle
proxies, edges, jobs, and a workflow singleton), accumulates per-iteration
deltas in `added` / `updated` / `pruned` buffers, applies them to the store
under protobuf merge semantics with per-kind clear-before-merge field sets,
and publishes checksummed delta bundles.

The development shallowly embeds that module: Python dicts become
association lists, protobuf messages become Lean structures with explicit
field-presence semantics (proto3: a scalar is "set" iff non-default, a
repeated or map field iff non-empty), wall-clock values become opaque
string parameters, and code paths that raise uncaught Python exceptions
return `none`.
-/

/-- Embeds `ID_DELIM` from `cylc.flow`: the delimiter joining id components. -/
def ID_DELIM : String := "|"

/-! ## Field model

The protobuf entity messages (`PbEdge`, `PbFamily`, `PbFamilyProxy`,
`PbJob`, `PbTask`, `PbTaskProxy`) are modelled by one structure `Ent`
carrying the fields that `data_store_mgr.py` reads or writes.  A field
name enumeration drives the generic `ListFields` / `ClearField` /
`MergeFrom` operations used by `apply_delta`. -/

/-- Names of the entity message fields manipulated by the module. -/
inductive FieldName
  | id | stamp | name | cycle_point | state | outputs | first_parent
  | task | family | source | target
  | is_held | is_held_total | depth
  | states | prerequisites | child_tasks | child_families | proxies
  | jobs | edges | ancestors | namespaces
  | state_totals
  deriving DecidableEq, Repr

/-- Wire kind of a field: string scalar, bool scalar, integer scalar,
repeated (list) field, or map field. -/
inductive FieldKind
  | sStr | sBool | sNat | rList | rMap
  deriving DecidableEq, Repr

/-- The proto type of each field (from the wire schema as used by the
source: `stamp`/`id`/... are strings, `is_held` bool, `is_held_total` and
`depth` integers, `states` etc. repeated, `state_totals` a map). -/
def fieldKind : FieldName → FieldKind
  | .id | .stamp | .name | .cycle_point | .state | .outputs
  | .first_parent | .task | .family | .source | .target => .sStr
  | .is_held => .sBool
  | .is_held_total | .depth => .sNat
  | .states | .prerequisites | .child_tasks | .child_families
  | .proxies | .jobs | .edges | .ancestors | .namespaces => .rList
  | .state_totals => .rMap

/-- All field names, in field-number order; `ListFields` enumerates the
set fields in this order. -/
def allFields : List FieldName :=
  [.id, .stamp, .name, .cycle_point, .state, .outputs, .first_parent,
   .task, .family, .source, .target, .is_held, .is_held_total, .depth,
   .states, .prerequisites, .child_tasks, .child_families, .proxies,
   .jobs, .edges, .ancestors, .namespaces, .state_totals]

/-- Model of one protobuf entity message.  Proto3 presence: a string field
is set iff `≠ ""`, a bool iff `true`, an integer iff `≠ 0`, a repeated or
map field iff non-empty.  Repeated message fields (`prerequisites`) are
modelled as opaque strings. -/
structure Ent where
  id : String := ""
  stamp : String := ""
  name : String := ""
  cycle_point : String := ""
  state : String := ""
  outputs : String := ""
  first_parent : String := ""
  task : String := ""
  family : String := ""
  source : String := ""
  target : String := ""
  is_held : Bool := false
  is_held_total : Nat := 0
  depth : Nat := 0
  states : List String := []
  prerequisites : List String := []
  child_tasks : List String := []
  child_families : List String := []
  proxies : List String := []
  jobs : List String := []
  edges : List String := []
  ancestors : List String := []
  namespaces : List String := []
  state_totals : List (String × Nat) := []
  deriving DecidableEq, Repr

/-- String-scalar field projection (`""` for fields of another kind). -/
def Ent.getStr (e : Ent) : FieldName → String
  | .id => e.id
  | .stamp => e.stamp
  | .name => e.name
  | .cycle_point => e.cycle_point
  | .state => e.state
  | .outputs => e.outputs
  | .first_parent => e.first_parent
  | .task => e.task
  | .family => e.family
  | .source => e.source
  | .target => e.target
  | _ => ""

/-- Repeated-field projection (`[]` for fields of another kind). -/
def Ent.getRep (e : Ent) : FieldName → List String
  | .states => e.states
  | .prerequisites => e.prerequisites
  | .child_tasks => e.child_tasks
  | .child_families => e.child_families
  | .proxies => e.proxies
  | .jobs => e.jobs
  | .edges => e.edges
  | .ancestors => e.ancestors
  | .namespaces => e.namespaces
  | _ => []

/-- Integer-scalar field projection. -/
def Ent.getNat (e : Ent) : FieldName → Nat
  | .is_held_total => e.is_held_total
  | .depth => e.depth
  | _ => 0

/-- Bool-scalar field projection. -/
def Ent.getBool (e : Ent) : FieldName → Bool
  | .is_held => e.is_held
  | _ => false

/-- Proto3 field presence, as reported by `ListFields`. -/
def Ent.isSet (e : Ent) (f : FieldName) : Bool :=
  match fieldKind f with
  | .sStr => e.getStr f ≠ ""
  | .sBool => e.getBool f
  | .sNat => e.getNat f ≠ 0
  | .rList => ¬ (e.getRep f).isEmpty
  | .rMap => ¬ e.state_totals.isEmpty

/-- Protobuf `ClearField`: reset one field to its default. -/
def Ent.clearField (e : Ent) : FieldName → Ent
  | .id => { e with id := "" }
  | .stamp => { e with stamp := "" }
  | .name => { e with name := "" }
  | .cycle_point => { e with cycle_point := "" }
  | .state => { e with state := "" }
  | .outputs => { e with outputs := "" }
  | .first_parent => { e with first_parent := "" }
  | .task => { e with task := "" }
  | .family => { e with family := "" }
  | .source => { e with source := "" }
  | .target => { e with target := "" }
  | .is_held => { e with is_held := false }
  | .is_held_total => { e with is_held_total := 0 }
  | .depth => { e with depth := 0 }
  | .states => { e with states := [] }
  | .prerequisites => { e with prerequisites := [] }
  | .child_tasks => { e with child_tasks := [] }
  | .child_families => { e with child_families := [] }
  | .proxies => { e with proxies := [] }
  | .jobs => { e with jobs := [] }
  | .edges => { e with edges := [] }
  | .ancestors => { e with ancestors := [] }
  | .namespaces => { e with namespaces := [] }
  | .state_totals => { e with state_totals := [] }

/-! ## Association-list maps (Python dicts / protobuf maps) -/

/-- A Python dict keyed by strings: an association list in insertion
order, with unique keys maintained by construction. -/
abbrev KVMap (α : Type) : Type := List (String × α)

/-- Dict lookup. -/
def kvLookup {α : Type} (k : String) : KVMap α → Option α
  | [] => none
  | (k', v) :: rest => if k' = k then some v else kvLookup k rest

/-- Dict membership (`k in d`). -/
def kvMem {α : Type} (k : String) (m : KVMap α) : Bool :=
  (kvLookup k m).isSome

/-- Dict assignment `d[k] = v`: replace in place if present, else append
(Python dicts preserve insertion order). -/
def kvInsert {α : Type} (k : String) (v : α) : KVMap α → KVMap α
  | [] => [(k, v)]
  | (k', v') :: rest =>
      if k' = k then (k', v) :: rest else (k', v') :: kvInsert k v rest

/-- In-place mutation of the value stored at `k` (no-op when absent):
models Python code that obtains `d[k]` and mutates the object. -/
def kvUpdate {α : Type} (k : String) (f : α → α) : KVMap α → KVMap α
  | [] => []
  | (k', v) :: rest =>
      if k' = k then (k', f v) :: rest else (k', v) :: kvUpdate k f rest

/-- Embeds `d.setdefault(k, dflt)` followed by in-place mutation `f` of the
returned object. -/
def kvUpsert {α : Type} (k : String) (dflt : α) (f : α → α) (m : KVMap α) :
    KVMap α :=
  match kvLookup k m with
  | some _ => kvUpdate k f m
  | none => m ++ [(k, f dflt)]

/-- The keys of a dict, in order. -/
def kvKeys {α : Type} (m : KVMap α) : List String := m.map (·.1)

/-- The values of a dict, in order (`d.values()`). -/
def kvValues {α : Type} (m : KVMap α) : List α := m.map (·.2)

/-- Embeds `dict(pairs)`: deduplicate keys keeping the last value, keys ordered
by first occurrence.  Also the protobuf map-field `MergeFrom` step:
each source entry is written into the destination map. -/
def mapMerge (m : KVMap Nat) (ps : List (String × Nat)) : KVMap Nat :=
  ps.foldl (fun acc p => kvInsert p.1 p.2 acc) m

/-! ## Entity kinds and the clear-before-merge table -/

/-- The six collection entity kinds (the `workflow` singleton is handled
separately throughout the source, as here). -/
inductive Kind
  | edges | families | family_proxies | jobs | tasks | task_proxies
  deriving DecidableEq, Repr

/-- Embeds `CLEAR_FIELD_MAP` (data_store_mgr.py:129-137): fields that must be
cleared before merging an `updated` delta, per kind.  The `workflow`
entry `{state_totals, states}` lives in `wfClearMerge` below. -/
def clearMap : Kind → List FieldName
  | .family_proxies => [.state_totals, .states]
  | .task_proxies => [.prerequisites, .outputs]
  | _ => []

/-- Protobuf `MergeFrom` on entity messages: singular fields are
overwritten when set in the source, repeated fields are appended, map
fields merge per key. -/
def Ent.mergeFrom (dst src : Ent) : Ent where
  id := if src.id ≠ "" then src.id else dst.id
  stamp := if src.stamp ≠ "" then src.stamp else dst.stamp
  name := if src.name ≠ "" then src.name else dst.name
  cycle_point := if src.cycle_point ≠ "" then src.cycle_point else dst.cycle_point
  state := if src.state ≠ "" then src.state else dst.state
  outputs := if src.outputs ≠ "" then src.outputs else dst.outputs
  first_parent := if src.first_parent ≠ "" then src.first_parent else dst.first_parent
  task := if src.task ≠ "" then src.task else dst.task
  family := if src.family ≠ "" then src.family else dst.family
  source := if src.source ≠ "" then src.source else dst.source
  target := if src.target ≠ "" then src.target else dst.target
  is_held := dst.is_held || src.is_held
  is_held_total := if src.is_held_total ≠ 0 then src.is_held_total else dst.is_held_total
  depth := if src.depth ≠ 0 then src.depth else dst.depth
  states := dst.states ++ src.states
  prerequisites := dst.prerequisites ++ src.prerequisites
  child_tasks := dst.child_tasks ++ src.child_tasks
  child_families := dst.child_families ++ src.child_families
  proxies := dst.proxies ++ src.proxies
  jobs := dst.jobs ++ src.jobs
  edges := dst.edges ++ src.edges
  ancestors := dst.ancestors ++ src.ancestors
  namespaces := dst.namespaces ++ src.namespaces
  state_totals := mapMerge dst.state_totals src.state_totals

/-! ## `apply_delta`: the `updated` branch for collection kinds
(data_store_mgr.py:161-186) -/

/-- The clear loop of `apply_delta` (lines 173-177): for each field that
is set in the delta element and named in the kind's clear set, clear that
field of the stored entity.  (The source iterates `element.ListFields()`
and tests membership in `CLEAR_FIELD_MAP[key]`; clearing operations for
distinct fields commute, so the iteration is folded over the field
universe with the same guard.) -/
def clearPass (k : Kind) (e : Ent) (old : Ent) : Ent :=
  allFields.foldl
    (fun acc f => if e.isSet f ∧ f ∈ clearMap k then acc.clearField f else acc)
    old

/-- Processing of one `updated` element whose id is present in the target
map: clear-before-merge, then `MergeFrom` (lines 173-178). -/
def applyUpdatedElement (k : Kind) (e : Ent) (old : Ent) : Ent :=
  (clearPass k e old).mergeFrom e

/-- One iteration of the `for element in delta.updated` loop
(lines 171-186).  State is the target map plus the list of debug-log
messages issued so far; a missing id raises `KeyError`, which is caught,
logged, and skipped. -/
def applyUpdatedStep (k : Kind) (acc : KVMap Ent × List String) (e : Ent) :
    KVMap Ent × List String :=
  match kvLookup e.id acc.1 with
  | some old => (kvInsert e.id (applyUpdatedElement k e old) acc.1, acc.2)
  | none => (acc.1, acc.2 ++ [e.id])

/-- The whole `updated` loop of `apply_delta` over a batch. -/
def applyUpdatedFold (k : Kind) (acc : KVMap Ent × List String)
    (elems : List Ent) : KVMap Ent × List String :=
  elems.foldl (applyUpdatedStep k) acc

/-! ## Checksums (`generate_checksum`, data_store_mgr.py:140-143)

A Python string is modelled, for sorting and encoding, as its sequence of
Unicode code points (`PyStr`); Python compares strings pointwise by code
point, which is the lexicographic order on these lists. -/

/-- A Python string as its list of Unicode code points. -/
abbrev PyStr := List Nat

/-- Code points of a Lean string literal. -/
def strCodes (s : String) : PyStr := s.data.map Char.toNat

/-- UTF-8 encoding of one code point (`str.encode()` acts per code
point). -/
def utf8Char (c : Nat) : List Nat :=
  if c < 0x80 then [c]
  else if c < 0x800 then [0xC0 + c / 0x40, 0x80 + c % 0x40]
  else if c < 0x10000 then
    [0xE0 + c / 0x1000, 0x80 + c / 0x40 % 0x40, 0x80 + c % 0x40]
  else
    [0xF0 + c / 0x40000, 0x80 + c / 0x1000 % 0x40,
     0x80 + c / 0x40 % 0x40, 0x80 + c % 0x40]

/-- UTF-8 encoding of a string. -/
def utf8Encode (s : PyStr) : List Nat := (s.map utf8Char).flatten

/-- Embeds `zlib.adler32`: running sums modulo 65521, low word `a` starting at 1,
high word `b` the sum of the running `a` values. -/
def adler32 (bytes : List Nat) : Nat :=
  let p := bytes.foldl
    (fun (ab : Nat × Nat) c =>
      let a := (ab.1 + c) % 65521
      (a, (ab.2 + a) % 65521))
    (1, 0)
  p.2 * 65536 + p.1

/-- Embeds `generate_checksum` (lines 140-143): Adler-32 of the concatenation of
the lexicographically sorted input strings, masked to 32 bits (the mask
`& 0xffffffff` is `% 2 ^ 32`). -/
def generate_checksum (in_strings : List PyStr) : Nat :=
  adler32 (utf8Encode (List.insertionSort (· ≤ ·) in_strings).flatten) % 2 ^ 32

/-! ## Counters (`collections.Counter` as used by the rollup) -/

/-- Embeds `self[k] = self.get(k, 0) + n`: bump one key of a counter dict. -/
def counterInc (c : KVMap Nat) (k : String) (n : Nat) : KVMap Nat :=
  match kvLookup k c with
  | some v => kvInsert k (v + n) c
  | none => c ++ [(k, n)]

/-- Embeds `Counter._keep_positive`: drop non-positive entries (with `Nat`
counts, the zero entries). -/
def keepPositive (c : KVMap Nat) : KVMap Nat := c.filter (fun p => 0 < p.2)

/-- Embeds `counter += other` (`Counter.__iadd__`): add each entry of `other`,
then keep only positive counts. -/
def counterIadd (c other : KVMap Nat) : KVMap Nat :=
  keepPositive (other.foldl (fun acc p => counterInc acc p.1 p.2) c)

/-- Embeds `Counter(list)`: count occurrences, keys in first-occurrence order. -/
def counterOfList (xs : List String) : KVMap Nat :=
  xs.foldl (fun acc x => counterInc acc x 1) []

/-- Value of a counter at a key (`0` when absent). -/
def counterGet (c : KVMap Nat) (k : String) : Nat := (kvLookup k c).getD 0

/-! ## Family rollup (`_family_ascent_point_update`, lines 975-1036) -/

/-- Embeds `updated.get(id, data.get(id))`: prefer the updated view, else the
store view. -/
def resolveNode (upd data : KVMap Ent) (cid : String) : Option Ent :=
  match kvLookup cid upd with
  | some n => some n
  | none => kvLookup cid data

/-- Lines 1002-1018: gather child-family state totals and hold totals,
then child-task states and hold flags, into a state counter and
`is_held_total`. -/
def familyRollupCounters (fam_node : Ent)
    (fp_updated fp_data tp_updated tp_data : KVMap Ent) : KVMap Nat × Nat :=
  let famAcc := fam_node.child_families.foldl
    (fun (acc : KVMap Nat × Nat) child_id =>
      match resolveNode fp_updated fp_data child_id with
      | some child =>
          (counterIadd acc.1 (mapMerge [] child.state_totals),
           acc.2 + child.is_held_total)
      | none => acc)
    ([], 0)
  let task_states := fam_node.child_tasks.foldl
    (fun (acc : List String) tp_id =>
      match resolveNode tp_updated tp_data tp_id with
      | some tp => if tp.state ≠ "" then acc ++ [tp.state] else acc
      | none => acc)
    []
  let held := fam_node.child_tasks.foldl
    (fun (h : Nat) tp_id =>
      match resolveNode tp_updated tp_data tp_id with
      | some tp => if tp.is_held then h + 1 else h
      | none => h)
    famAcc.2
  (counterIadd famAcc.1 (counterOfList task_states), held)

/-- Modelled from the spec: `group_state`
(`cylc.flow.task_state_prop.extract_group_state`, not under `src/`)
"selects a canonical aggregated status from a set of child statuses by
priority" — the first status of a fixed priority list that occurs among
the child statuses.  The concrete priority order is not given by `src/`;
any fixed order realizes the contract. -/
def statePriority : List String :=
  ["submit-failed", "failed", "expired", "submit-retrying", "retrying",
   "running", "submitted", "ready", "queued", "waiting", "succeeded"]

/-- Modelled from the spec: the aggregated group status of a list of
child statuses, `none` when no status occurs. -/
def extract_group_state (child_states : List String) : Option String :=
  statePriority.find? (fun s => child_states.contains s)

/-- Lines 1020-1029: the emitted `PbFamilyProxy` delta for a family
flagged for rollup (constructor keyword `state=None` is ignored by
protobuf, leaving the default empty string). -/
def familyDeltaOf (fp_id t : String) (fam_node : Ent)
    (fp_updated fp_data tp_updated tp_data : KVMap Ent) : Ent :=
  let rc := familyRollupCounters fam_node fp_updated fp_data tp_updated tp_data
  { id := fp_id,
    stamp := fp_id ++ "@" ++ t,
    state := (extract_group_state (rc.1.map (·.1))).getD "",
    is_held := decide (0 < rc.2),
    is_held_total := rc.2,
    states := rc.1.map (·.1),
    state_totals := rc.1 }

/-! ## The workflow singleton message -/

/-- Model of `PbWorkflow`, restricted to the fields the module touches.
`edges_list` stands for the id list `workflow.edges.edges` of the graph
submessage; timestamps are opaque strings. -/
structure Wf where
  id : String := ""
  stamp : String := ""
  last_updated : String := ""
  status : String := ""
  status_msg : String := ""
  oldest_cycle_point : String := ""
  newest_cycle_point : String := ""
  newest_runahead_cycle_point : String := ""
  broadcasts : String := ""
  is_held_total : Nat := 0
  states : List String := []
  state_totals : KVMap Nat := []
  tasks : List String := []
  families : List String := []
  task_proxies : List String := []
  family_proxies : List String := []
  jobs : List String := []
  edges_list : List String := []
  deriving DecidableEq, Repr

/-- Embeds `ListFields()` of the workflow message is empty iff every field holds
its default. -/
def wfIsEmpty (w : Wf) : Bool := decide (w = {})

/-- Protobuf `MergeFrom` on the workflow message: singular fields
overwritten when set in the source, repeated fields appended, the
`state_totals` map merged per key. -/
def wfMergeFrom (dst src : Wf) : Wf where
  id := if src.id ≠ "" then src.id else dst.id
  stamp := if src.stamp ≠ "" then src.stamp else dst.stamp
  last_updated := if src.last_updated ≠ "" then src.last_updated else dst.last_updated
  status := if src.status ≠ "" then src.status else dst.status
  status_msg := if src.status_msg ≠ "" then src.status_msg else dst.status_msg
  oldest_cycle_point :=
    if src.oldest_cycle_point ≠ "" then src.oldest_cycle_point
    else dst.oldest_cycle_point
  newest_cycle_point :=
    if src.newest_cycle_point ≠ "" then src.newest_cycle_point
    else dst.newest_cycle_point
  newest_runahead_cycle_point :=
    if src.newest_runahead_cycle_point ≠ "" then src.newest_runahead_cycle_point
    else dst.newest_runahead_cycle_point
  broadcasts := if src.broadcasts ≠ "" then src.broadcasts else dst.broadcasts
  is_held_total := if src.is_held_total ≠ 0 then src.is_held_total else dst.is_held_total
  states := dst.states ++ src.states
  state_totals := mapMerge dst.state_totals src.state_totals
  tasks := dst.tasks ++ src.tasks
  families := dst.families ++ src.families
  task_proxies := dst.task_proxies ++ src.task_proxies
  family_proxies := dst.family_proxies ++ src.family_proxies
  jobs := dst.jobs ++ src.jobs
  edges_list := dst.edges_list ++ src.edges_list

/-! ## `update_workflow` (lines 1038-1081) -/

/-- Embeds `set(xs)` where only membership and iteration are observed:
deduplicate keeping first occurrences (a deterministic refinement of the
arbitrary set iteration order). -/
def pySet (xs : List String) : List String :=
  xs.foldl (fun acc x => if acc.contains x then acc else acc ++ [x]) []

/-- Embeds the root-node lookup of lines 1060-1061,
`self.updated[FAMILY_PROXIES].get(root_id, data.get(root_id))`.  The
fallback `data.get(root_id)` consults `data = self.data[self.workflow_id]`
— the dict keyed by the seven kind names of `DATA_TEMPLATE` — so a
family-proxy id (which contains `ID_DELIM`) never hits and the fallback
is always `None`; only roots present in `updated[FAMILY_PROXIES]` are
found. -/
def updateWorkflowRootGet (fp_updated : KVMap Ent) (root_id : String) :
    Option Ent :=
  match kvLookup root_id fp_updated with
  | some n => some n
  | none => none

/-- Embeds `update_workflow` (lines 1038-1081): refresh the updated-workflow
message's stamp, aggregate `state_totals` / `is_held_total` over the
root family proxies found in store and `added` (via
`updateWorkflowRootGet`, counting only nodes with a non-empty `state`),
write the suite status pair, and copy the extreme cycle points when
set. -/
def update_workflow (workflow_id t : String) (wfU : Wf)
    (fp_data fp_added fp_updated : KVMap Ent) (status status_msg : String)
    (min_point max_point runahead_point : String) : Wf :=
  let wfU := { wfU with id := workflow_id, last_updated := t,
                        stamp := workflow_id ++ "@" ++ t }
  let roots := pySet
    ((((kvValues fp_data).filter (fun n => n.name = "root")).map (·.id)) ++
     (((kvValues fp_added).filter (fun n => n.name = "root")).map (·.id)))
  let acc := roots.foldl
    (fun (acc : KVMap Nat × Nat) root_id =>
      match updateWorkflowRootGet fp_updated root_id with
      | some root_node =>
          if root_node.state ≠ "" then
            (counterIadd acc.1 (mapMerge [] root_node.state_totals),
             acc.2 + root_node.is_held_total)
          else acc
      | none => acc)
    ([], 0)
  let wfU := { wfU with
    states := acc.1.map (·.1),
    state_totals := mapMerge wfU.state_totals acc.1,
    is_held_total := acc.2,
    status := status, status_msg := status_msg }
  let wfU := if min_point ≠ "" then { wfU with oldest_cycle_point := min_point } else wfU
  let wfU := if max_point ≠ "" then { wfU with newest_cycle_point := max_point } else wfU
  if runahead_point ≠ "" then
    { wfU with newest_runahead_cycle_point := runahead_point }
  else wfU

/-- The root family proxies of store and `added` buffer (name `root`),
one entity per id. -/
def rootEnts (fp_data fp_added : KVMap Ent) : List Ent :=
  ((kvValues fp_data).filter (fun n => n.name = "root") ++
   (kvValues fp_added).filter (fun n => n.name = "root")).foldl
    (fun (acc : List Ent) n =>
      if (acc.map (·.id)).contains n.id then acc else acc ++ [n])
    []

/-- The claim's intended aggregate: the sum of `state_totals` at a state
over all root family proxies of store and `added` buffer. -/
def rootTotalsSum (fp_data fp_added : KVMap Ent) (s : String) : Nat :=
  (rootEnts fp_data fp_added).foldl
    (fun n r => n + counterGet (mapMerge [] r.state_totals) s) 0

/-! ## Manager state and structures for deltas -/

/-- One per-kind delta message (`EDeltas` .. `TPDeltas`): `added` full
entities, `updated` partial entities, `pruned` ids, a `time` stamp, a
`checksum`, and the `reloaded` flag. -/
structure Delta where
  added : List Ent := []
  updated : List Ent := []
  pruned : List String := []
  time : String := ""
  checksum : Nat := 0
  reloaded : Bool := false
  deriving DecidableEq, Repr

/-- The workflow delta message `WDeltas`: singleton `added` / `updated`
sub-messages and no `pruned` list.  (It also carries no `checksum`
field: `apply_deltas` guards with `hasattr`, and the checksum loop reads
`data[key].values()`, which only exists for the dict-valued kinds.) -/
structure WDelta where
  added : Wf := {}
  updated : Wf := {}
  time : String := ""
  reloaded : Bool := false
  deriving DecidableEq, Repr

/-- The manager's `self.deltas` table, one message per kind. -/
structure Deltas where
  edges : Delta := {}
  families : Delta := {}
  family_proxies : Delta := {}
  jobs : Delta := {}
  tasks : Delta := {}
  task_proxies : Delta := {}
  workflow : WDelta := {}
  deriving DecidableEq, Repr

/-- The per-kind maps of `self.data[self.workflow_id]` plus the workflow
singleton. -/
structure FlowData where
  edges : KVMap Ent := []
  families : KVMap Ent := []
  family_proxies : KVMap Ent := []
  jobs : KVMap Ent := []
  tasks : KVMap Ent := []
  task_proxies : KVMap Ent := []
  workflow : Wf := {}
  deriving DecidableEq, Repr

/-- The `self.added` / `self.updated` delta buffers. -/
structure Buffers where
  edges : KVMap Ent := []
  families : KVMap Ent := []
  family_proxies : KVMap Ent := []
  jobs : KVMap Ent := []
  tasks : KVMap Ent := []
  task_proxies : KVMap Ent := []
  workflow : Wf := {}
  deriving DecidableEq, Repr

/-- The slice of the collaborating `JobPool` read and cleared by
`apply_deltas`. -/
structure JobPool where
  pool : KVMap Ent := []
  added : KVMap Ent := []
  updated : KVMap Ent := []
  deltas : Delta := {}
  deriving DecidableEq, Repr

/-- The `DataStoreMgr` state touched by the embedded operations. -/
structure MgrState where
  workflow_id : String := ""
  data : FlowData := {}
  added : Buffers := {}
  updated : Buffers := {}
  deltas : Deltas := {}
  job_pool : JobPool := {}
  ancestors : KVMap (List String) := []
  deriving DecidableEq, Repr

def FlowData.get (d : FlowData) : Kind → KVMap Ent
  | .edges => d.edges
  | .families => d.families
  | .family_proxies => d.family_proxies
  | .jobs => d.jobs
  | .tasks => d.tasks
  | .task_proxies => d.task_proxies

def FlowData.set (d : FlowData) : Kind → KVMap Ent → FlowData
  | .edges, m => { d with edges := m }
  | .families, m => { d with families := m }
  | .family_proxies, m => { d with family_proxies := m }
  | .jobs, m => { d with jobs := m }
  | .tasks, m => { d with tasks := m }
  | .task_proxies, m => { d with task_proxies := m }

def Buffers.get (b : Buffers) : Kind → KVMap Ent
  | .edges => b.edges
  | .families => b.families
  | .family_proxies => b.family_proxies
  | .jobs => b.jobs
  | .tasks => b.tasks
  | .task_proxies => b.task_proxies

def Buffers.set (b : Buffers) : Kind → KVMap Ent → Buffers
  | .edges, m => { b with edges := m }
  | .families, m => { b with families := m }
  | .family_proxies, m => { b with family_proxies := m }
  | .jobs, m => { b with jobs := m }
  | .tasks, m => { b with tasks := m }
  | .task_proxies, m => { b with task_proxies := m }

def Deltas.get (ds : Deltas) : Kind → Delta
  | .edges => ds.edges
  | .families => ds.families
  | .family_proxies => ds.family_proxies
  | .jobs => ds.jobs
  | .tasks => ds.tasks
  | .task_proxies => ds.task_proxies

def Deltas.set (ds : Deltas) : Kind → Delta → Deltas
  | .edges, d => { ds with edges := d }
  | .families, d => { ds with families := d }
  | .family_proxies, d => { ds with family_proxies := d }
  | .jobs, d => { ds with jobs := d }
  | .tasks, d => { ds with tasks := d }
  | .task_proxies, d => { ds with task_proxies := d }

/-- The kinds in the iteration order of `self.deltas` / `self.added` /
`self.updated` (dict insertion order from `__init__`); the `workflow`
entry comes last and is handled by its own branch everywhere. -/
def kindOrder : List Kind :=
  [.edges, .families, .family_proxies, .jobs, .tasks, .task_proxies]

/-- Embeds `delta.ListFields()` non-empty for a per-kind delta message. -/
def deltaNonEmpty (d : Delta) : Bool :=
  ¬ d.added.isEmpty ∨ ¬ d.updated.isEmpty ∨ ¬ d.pruned.isEmpty ∨
    d.time ≠ "" ∨ d.checksum ≠ 0 ∨ d.reloaded

/-- Embeds `delta.ListFields()` non-empty for the workflow delta message (the
singleton sub-messages are populated only under a non-emptiness guard, so
presence coincides with non-emptiness). -/
def wdeltaNonEmpty (w : WDelta) : Bool :=
  ¬ wfIsEmpty w.added ∨ ¬ wfIsEmpty w.updated ∨ w.time ≠ "" ∨ w.reloaded

/-! ## Ghost generation (`generate_ghost_task` lines 542-588,
`generate_ghost_family` lines 590-656)

The family generator recurses along the first-parent chain; the
embedding takes an explicit fuel argument (the chain is finite in any
run), and returns `none` on fuel exhaustion or on any code path that
raises an uncaught Python exception (`KeyError` on a missing family
definition or ancestors entry, `IndexError` on an empty ancestor list,
`ValueError` on an id that does not split into four components,
`TypeError` on appending a `None` child id). -/

/-- Embeds `str.split(delim)` on code points (empty components preserved). -/
def splitChars (delim : Char) : List Char → List (List Char)
  | [] => [[]]
  | c :: rest =>
    match splitChars delim rest with
    | [] => [[]]
    | grp :: groups =>
        if c = delim then [] :: grp :: groups else (c :: grp) :: groups

/-- Embeds `s.split(ID_DELIM)` for the one-character cylc delimiter. -/
def pySplit (s : String) : List String :=
  (splitChars '|' s.data).map (fun cs => String.mk cs)

/-- The ancestor proxy ids of a definition (task lines 573-576, family
lines 634-637): one id per first-parent ancestor name other than the
definition's own name, at the given cycle point. -/
def ghostAncIds (workflow_id point_string name : String)
    (anc : List String) : List String :=
  (anc.filter (fun a => a ≠ name)).map
    (fun a => workflow_id ++ ID_DELIM ++ point_string ++ ID_DELIM ++ a)

/-- Append the requesting child id to the family proxy stored at `fp_id`
in map `m` (lines 653-656): a task child is appended unconditionally, a
family child only when not already present; `none` when both child
arguments are `None` (appending `None` raises). -/
def appendChildTo (fp_id : String) (child_fam child_task : Option String)
    (m : KVMap Ent) : Option (KVMap Ent) :=
  match child_fam, child_task with
  | none, some ct =>
      some (kvUpdate fp_id
        (fun p => { p with child_tasks := p.child_tasks ++ [ct] }) m)
  | none, none => none
  | some cf, _ =>
      some (kvUpdate fp_id
        (fun p =>
          if p.child_families.contains cf then p
          else { p with child_families := p.child_families ++ [cf] }) m)

/-- The new family-proxy delta of lines 626-639. -/
def ghostFpDelta (workflow_id fp_id point_string t : String) (fam : Ent)
    (anc : List String) : Ent :=
  { stamp := fp_id ++ "@" ++ t, id := fp_id, cycle_point := point_string,
    name := fam.name, family := fam.id, depth := fam.depth,
    ancestors := ghostAncIds workflow_id point_string fam.name anc,
    first_parent := (ghostAncIds workflow_id point_string fam.name anc).headD "" }

/-- Lines 640-648: insert the new family proxy into
`added[FAMILY_PROXIES]`, merge the back-reference delta into
`updated[FAMILIES]`, and append the id to the updated workflow's
`family_proxies` (three mutations of pairwise distinct attributes,
combined into one record update). -/
def ghostFamilyInsert (st : MgrState) (fp_id point_string t : String)
    (fam : Ent) (anc : List String) : MgrState :=
  { st with
    added := { st.added with family_proxies :=
      (kvInsert fp_id (ghostFpDelta st.workflow_id fp_id point_string t fam anc)
        st.added.family_proxies) },
    updated := { st.updated with
      families :=
        (kvUpsert fam.id { id := fam.id }
          (fun f => f.mergeFrom
            { id := fam.id, stamp := fam.id ++ "@" ++ t, proxies := [fp_id] })
          st.updated.families),
      workflow := { st.updated.workflow with family_proxies :=
        (st.updated.workflow.family_proxies ++ [fp_id]) } } }

/-- Embeds `generate_ghost_family` (lines 590-656).  The recursion along the
first-parent chain carries explicit fuel; `none` models fuel exhaustion
or an uncaught Python exception (`KeyError` on a missing family
definition or ancestors entry, `ValueError` on an id that does not split
into four components, `TypeError` on appending a `None` child id). -/
def generate_ghost_family (fuel : Nat) (st : MgrState) (fp_id : String)
    (child_fam child_task : Option String) (t : String) : Option MgrState :=
  match fuel with
  | 0 => none
  | fuel' + 1 =>
    if kvMem fp_id st.data.family_proxies then
      match appendChildTo fp_id child_fam child_task
          (kvUpsert fp_id { id := fp_id } (fun x => x)
            st.updated.family_proxies) with
      | some upd' =>
          some { st with updated := { st.updated with family_proxies := upd' } }
      | none => none
    else if kvMem fp_id st.added.family_proxies then
      match appendChildTo fp_id child_fam child_task
          st.added.family_proxies with
      | some m => some { st with added := { st.added with family_proxies := m } }
      | none => none
    else
      match pySplit fp_id with
      | [_, _, point_string, name] =>
        match kvLookup (st.workflow_id ++ ID_DELIM ++ name)
            (if st.data.families.isEmpty then st.added.families
             else st.data.families) with
        | none => none
        | some fam =>
          match kvLookup fam.name st.ancestors with
          | none => none
          | some anc =>
            match (if (ghostAncIds st.workflow_id point_string fam.name
                      anc).headD "" ≠ "" then
                     generate_ghost_family fuel'
                       (ghostFamilyInsert st fp_id point_string t fam anc)
                       ((ghostAncIds st.workflow_id point_string fam.name
                         anc).headD "")
                       (some fp_id) none t
                   else some (ghostFamilyInsert st fp_id point_string t fam anc))
              with
            | none => none
            | some st4 =>
              match appendChildTo fp_id child_fam child_task
                  st4.added.family_proxies with
              | some m =>
                  some { st4 with added :=
                    { st4.added with family_proxies := m } }
              | none => none
      | _ => none

/-- The new task-proxy message of lines 564-577. -/
def ghostTProxy (workflow_id tp_id t_id point_string t : String)
    (taskdef : Ent) (anc : List String) : Ent :=
  { stamp := tp_id ++ "@" ++ t, id := tp_id, task := t_id,
    cycle_point := point_string, depth := taskdef.depth,
    name := taskdef.name, namespaces := taskdef.namespaces,
    ancestors := ghostAncIds workflow_id point_string taskdef.name anc,
    first_parent :=
      (ghostAncIds workflow_id point_string taskdef.name anc).headD "" }

/-- Lines 579-587: insert the new task proxy into `added[TASK_PROXIES]`,
append its id to the updated workflow's `task_proxies`, and append it to
the owning task definition's `proxies` in `updated[TASKS]` (mutations of
pairwise distinct attributes, combined into one record update). -/
def ghostTaskInsert (st : MgrState) (t_id tp_id point_string t : String)
    (taskdef : Ent) (anc : List String) : MgrState :=
  { st with
    added := { st.added with task_proxies :=
      (kvInsert tp_id
        (ghostTProxy st.workflow_id tp_id t_id point_string t taskdef anc)
        st.added.task_proxies) },
    updated := { st.updated with
      workflow := { st.updated.workflow with task_proxies :=
        (st.updated.workflow.task_proxies ++ [tp_id]) },
      tasks :=
        (kvUpsert t_id { stamp := t_id ++ "@" ++ t, id := t_id }
          (fun tk => { tk with proxies := tk.proxies ++ [tp_id] })
          st.updated.tasks) } }

/-- Embeds `generate_ghost_task` (lines 542-588).  `none` models the uncaught
`AttributeError` when the task definition is missing, the `KeyError` on
a missing ancestors entry, or the `IndexError` on an empty ancestor
list. -/
def generate_ghost_task (fuel : Nat) (st : MgrState)
    (t_id tp_id point_string t : String) : Option MgrState :=
  if kvMem tp_id st.data.task_proxies ∨ kvMem tp_id st.added.task_proxies then
    some st
  else
    match (match kvLookup t_id st.data.tasks with
           | some td => some td
           | none => kvLookup t_id st.added.tasks) with
    | none => none
    | some taskdef =>
      match kvLookup taskdef.name st.ancestors with
      | none => none
      | some anc =>
        match ghostAncIds st.workflow_id point_string taskdef.name anc with
        | [] => none
        | fp :: _ =>
          generate_ghost_family fuel
            (ghostTaskInsert st t_id tp_id point_string t taskdef anc)
            fp none (some tp_id) t

/-! ## The pruning pass of `increment_graph_elements` (lines 807-818)

Cycle points are comparable hashable objects rendered with `str`; the
embedding identifies a point with its string rendering.  The sets
`t_points` and `prune_points` are modelled as lists observed through
membership. -/

/-- The condition of the drop branch (lines 809-810): source point out of
the pool and target points disjoint from it (`s_point not in
self.pool_points and t_points.isdisjoint(self.pool_points)`). -/
def dropCond (pool : List String) (entry : String × List String) : Bool :=
  ¬ pool.contains entry.1 ∧ entry.2.all (fun tp => ¬ pool.contains tp)

/-- One iteration of `for s_point, t_points in list(edge_points.items())`:
accumulates the surviving entries and the points scheduled for pruning
(`t_diffs = t_points.difference(pool)`, written inline). -/
def incrementPruneStep (pool : List String)
    (acc : KVMap (List String) × List String) (entry : String × List String) :
    KVMap (List String) × List String :=
  if dropCond pool entry then
    (acc.1, acc.2 ++ entry.1 :: entry.2)
  else
    if ¬ (entry.2.filter (fun tp => ¬ pool.contains tp)).isEmpty then
      (acc.1 ++ [(entry.1, entry.2.filter (fun tp => pool.contains tp))],
       acc.2 ++ entry.2.filter (fun tp => ¬ pool.contains tp))
    else (acc.1 ++ [entry], acc.2)

/-- The pruning pass: the resulting `edge_points` map and the collected
`prune_points`. -/
def incrementPrune (edge_points : KVMap (List String)) (pool : List String) :
    KVMap (List String) × List String :=
  edge_points.foldl (incrementPruneStep pool) ([], [])

/-! ## `apply_delta` (lines 153-201), all three branches -/

/-- Python `list.remove` / repeated-field `remove`: drop the first
occurrence, `none` (a `ValueError`) when absent. -/
def listRemove (x : String) : List String → Option (List String)
  | [] => none
  | y :: rest =>
      if y = x then some rest else (listRemove x rest).map (fun r => y :: r)

/-- Embeds `del d[k]`. -/
def kvErase {α : Type} (k : String) : KVMap α → KVMap α
  | [] => []
  | (k', v) :: rest => if k' = k then rest else (k', v) :: kvErase k rest

/-- One pruned id (lines 190-201): absent ids are skipped; a task or
family proxy is removed from its definition's `proxies` and from the
workflow id list, an edge from the workflow edge list, then the entity is
deleted.  `none` models the uncaught `KeyError`/`ValueError` when a
cross-reference is missing. -/
def applyPrunedStep (k : Kind) (d : FlowData) (del_id : String) :
    Option FlowData :=
  match kvLookup del_id (d.get k) with
  | none => some d
  | some ent =>
    match k with
    | .task_proxies =>
      match kvLookup ent.task d.tasks with
      | none => none
      | some tk =>
        match listRemove del_id tk.proxies with
        | none => none
        | some ps =>
          match listRemove del_id d.workflow.task_proxies with
          | none => none
          | some wps =>
            some { d with
              tasks := (kvUpdate ent.task (fun x => { x with proxies := ps })
                d.tasks),
              workflow := { d.workflow with task_proxies := wps },
              task_proxies := kvErase del_id d.task_proxies }
    | .family_proxies =>
      match kvLookup ent.family d.families with
      | none => none
      | some fm =>
        match listRemove del_id fm.proxies with
        | none => none
        | some ps =>
          match listRemove del_id d.workflow.family_proxies with
          | none => none
          | some wps =>
            some { d with
              families := (kvUpdate ent.family (fun x => { x with proxies := ps })
                d.families),
              workflow := { d.workflow with family_proxies := wps },
              family_proxies := kvErase del_id d.family_proxies }
    | .edges =>
      match listRemove del_id d.workflow.edges_list with
      | none => none
      | some wes =>
        some { d with
          workflow := { d.workflow with edges_list := wes },
          edges := kvErase del_id d.edges }
    | k => some (d.set k (kvErase del_id (d.get k)))

/-- The `pruned` loop. -/
def applyPruned (k : Kind) (d : FlowData) (ids : List String) :
    Option FlowData :=
  ids.foldl
    (fun acc del_id =>
      match acc with
      | none => none
      | some d' => applyPrunedStep k d' del_id)
    (some d)

/-- Embeds `apply_delta` for a collection kind: assimilate `added`, merge
`updated` under the clear-before-merge rules (collecting debug-log
messages for skipped ids), prune. -/
def apply_delta_kind (k : Kind) (delta : Delta) (d : FlowData) :
    Option (FlowData × List String) :=
  let d1 := d.set k (delta.added.foldl (fun m e => kvInsert e.id e m) (d.get k))
  let ml := applyUpdatedFold k (d1.get k, []) delta.updated
  let d2 := d1.set k ml.1
  (applyPruned k d2 delta.pruned).map (fun d3 => (d3, ml.2))

/-- Embeds `apply_delta` for the `workflow` key (lines 156-169): `added` copied
wholesale when any field is set; `updated` merged after clearing the
workflow clear-before-merge fields (`state_totals`, `states`) that are
set in the delta. -/
def apply_delta_workflow (wd : WDelta) (d : FlowData) : FlowData :=
  let d1 := if ¬ wfIsEmpty wd.added then { d with workflow := wd.added } else d
  let w := d1.workflow
  let w := if ¬ wd.updated.state_totals.isEmpty then
      { w with state_totals := [] } else w
  let w := if ¬ wd.updated.states.isEmpty then { w with states := [] } else w
  { d1 with workflow := wfMergeFrom w wd.updated }

/-! ## `apply_deltas` (lines 1112-1163), in phases -/

/-- Lines 1114-1136: copy the job-pool deltas and buffers in, extend the
updated-workflow job list with newly added job ids, then fold the
`added` and `updated` buffers into the per-kind delta messages. -/
def gatherPhase (st : MgrState) : MgrState :=
  let st := { st with
    deltas := { st.deltas with jobs := st.job_pool.deltas },
    added := { st.added with jobs := st.job_pool.added },
    updated := { st.updated with jobs := st.job_pool.updated } }
  let st :=
    if ¬ st.job_pool.added.isEmpty then
      { st with updated := { st.updated with workflow :=
          { st.updated.workflow with jobs :=
              (st.updated.workflow.jobs ++ kvKeys st.job_pool.added) } } }
    else st
  let st := kindOrder.foldl
    (fun st k =>
      if ¬ (st.added.get k).isEmpty then
        { st with deltas := (st.deltas.set k
            { (st.deltas.get k) with added :=
                ((st.deltas.get k).added ++ kvValues (st.added.get k)) }) }
      else st)
    st
  let st :=
    if ¬ wfIsEmpty st.added.workflow then
      { st with deltas := { st.deltas with workflow :=
          { st.deltas.workflow with added := st.added.workflow } } }
    else st
  let st := kindOrder.foldl
    (fun st k =>
      if ¬ (st.updated.get k).isEmpty then
        { st with deltas := (st.deltas.set k
            { (st.deltas.get k) with updated :=
                ((st.deltas.get k).updated ++ kvValues (st.updated.get k)) }) }
      else st)
    st
  if ¬ wfIsEmpty st.updated.workflow then
    { st with deltas := { st.deltas with workflow :=
        { st.deltas.workflow with updated := st.updated.workflow } } }
  else st

/-- Lines 1138-1143: stamp each non-empty delta with the `reloaded` flag
and apply it to the local store (debug logs discarded). -/
def applyPhase (st : MgrState) (reloaded : Bool) : Option MgrState :=
  let stepK := fun (acc : Option MgrState) (k : Kind) =>
    match acc with
    | none => none
    | some st =>
      if deltaNonEmpty (st.deltas.get k) then
        let delta := { (st.deltas.get k) with reloaded := reloaded }
        let st := { st with deltas := st.deltas.set k delta }
        match apply_delta_kind k delta st.data with
        | none => none
        | some dl => some { st with data := dl.1 }
      else some st
  match kindOrder.foldl stepK (some st) with
  | none => none
  | some st =>
    if wdeltaNonEmpty st.deltas.workflow then
      let wd := { st.deltas.workflow with reloaded := reloaded }
      let st := { st with deltas := { st.deltas with workflow := wd } }
      some { st with data := apply_delta_workflow wd st.data }
    else some st

/-- The store slice strings checksummed for kind `k` (lines 1150-1158):
the `id` of each stored edge, the `stamp` of every other kind's stored
entities. -/
def checksumStrings (k : Kind) (d : FlowData) : List PyStr :=
  (kvValues (d.get k)).map
    (fun e => strCodes (if k = Kind.edges then e.id else e.stamp))

/-- Lines 1145-1158: set `time` on every non-empty delta and `checksum`
on those whose message carries one (the six collection kinds; `WDeltas`
has no checksum field — the `hasattr` guard — and the loop body reads
`data[key].values()`, which only the dict-valued kinds support). -/
def checksumStep (t : String) (st : MgrState) (k : Kind) : MgrState :=
  if deltaNonEmpty (st.deltas.get k) then
    { st with deltas := (st.deltas.set k
        { (st.deltas.get k) with
            time := t,
            checksum := generate_checksum (checksumStrings k st.data) }) }
  else st

def checksumPhase (st : MgrState) (t : String) : MgrState :=
  let st := kindOrder.foldl (checksumStep t) st
  if wdeltaNonEmpty st.deltas.workflow then
    { st with deltas := { st.deltas with workflow :=
        { st.deltas.workflow with time := t } } }
  else st

/-- Lines 1160-1163: clear the job-pool change buffers. -/
def clearJobPoolPhase (st : MgrState) : MgrState :=
  { st with job_pool :=
      { st.job_pool with deltas := {}, added := [], updated := [] } }

/-- Embeds `apply_deltas` (lines 1112-1163). -/
def apply_deltas (st : MgrState) (reloaded : Bool) (t : String) :
    Option MgrState :=
  match applyPhase (gatherPhase st) reloaded with
  | none => none
  | some st' => some (clearJobPoolPhase (checksumPhase st' t))

/-! ## `clear_deltas` (lines 1101-1110) and
`get_publish_deltas` (lines 1187-1199) -/

/-- Embeds `clear_deltas`: every delta message cleared, every `added` / `updated`
buffer emptied (the workflow buffers are messages, cleared to default). -/
def clear_deltas (st : MgrState) : MgrState :=
  { st with deltas := {}, added := {}, updated := {} }

/-- The `AllDeltas` aggregate: one optional sub-delta per kind
(populated by `CopyFrom` for each non-empty per-kind delta). -/
structure AllDeltas where
  edges : Option Delta := none
  families : Option Delta := none
  family_proxies : Option Delta := none
  jobs : Option Delta := none
  tasks : Option Delta := none
  task_proxies : Option Delta := none
  workflow : Option WDelta := none
  deriving DecidableEq, Repr

def AllDeltas.setK (a : AllDeltas) : Kind → Delta → AllDeltas
  | .edges, d => { a with edges := some d }
  | .families, d => { a with families := some d }
  | .family_proxies, d => { a with family_proxies := some d }
  | .jobs, d => { a with jobs := some d }
  | .tasks, d => { a with tasks := some d }
  | .task_proxies, d => { a with task_proxies := some d }

/-- One entry of the publishable bundle (the serialized payload is
identified with the message it serializes). -/
inductive PubItem
  | kindDelta (k : Kind) (d : Delta)
  | wfDelta (d : WDelta)
  | allDelta (a : AllDeltas)
  deriving DecidableEq, Repr

/-- Embeds `get_publish_deltas`: one entry per non-empty per-kind delta, each
also copied into the `AllDeltas` aggregate, which is always appended
last. -/
def get_publish_deltas (ds : Deltas) : List PubItem :=
  let r := kindOrder.foldl
    (fun (acc : List PubItem × AllDeltas) k =>
      if deltaNonEmpty (ds.get k) then
        (acc.1 ++ [PubItem.kindDelta k (ds.get k)], acc.2.setK k (ds.get k))
      else acc)
    ([], {})
  let r :=
    if wdeltaNonEmpty ds.workflow then
      (r.1 ++ [PubItem.wfDelta ds.workflow],
       { r.2 with workflow := some ds.workflow })
    else r
  r.1 ++ [PubItem.allDelta r.2]

/-! ## `get_data_elements` (lines 1201-1222) -/

/-- The keys of `DELTAS_MAP`: the seven kinds plus the `all` aggregate. -/
def deltasMapKeys : List String :=
  ["edges", "families", "family_proxies", "jobs", "tasks", "task_proxies",
   "workflow", "all"]

/-- The collection kind named by a `DELTAS_MAP` key. -/
def kindOfString : String → Option Kind
  | "edges" => some .edges
  | "families" => some .families
  | "family_proxies" => some .family_proxies
  | "jobs" => some .jobs
  | "tasks" => some .tasks
  | "task_proxies" => some .task_proxies
  | _ => none

/-- Result of `get_data_elements`.  `err` models the uncaught exception
for `element_type = "all"`: after `pb_msg.time = ...`, the line
`pb_msg.added.extend(data[element_type].values())` reads `data["all"]`,
and the store (`DATA_TEMPLATE`) has no `"all"` slice, so a `KeyError` is
raised (an `AttributeError` on the `AllDeltas` message may occur even
earlier). -/
inductive GetDataResult
  | wdelta (d : WDelta)
  | kdelta (k : Kind) (d : Delta)
  | err
  deriving DecidableEq, Repr

/-- Embeds `get_data_elements`: unknown keys return a fresh empty workflow
delta; the workflow key returns the singleton as `added`; a collection
kind returns all stored entities of that kind as `added`; the `all` key
raises.  The store is read only — the function returns no modified
store. -/
def get_data_elements (element_type : String) (d : FlowData) : GetDataResult :=
  if ¬ deltasMapKeys.contains element_type then GetDataResult.wdelta {}
  else if element_type = "workflow" then
    GetDataResult.wdelta { time := d.workflow.last_updated, added := d.workflow }
  else
    match kindOfString element_type with
    | some k =>
        GetDataResult.kdelta k
          { time := d.workflow.last_updated, added := kvValues (d.get k) }
    | none => GetDataResult.err


/-! ## Auxiliary spec-side definitions for the claims -/

/-- Python string comparison: lexicographic on code points. -/
def pyStrLe (a b : String) : Prop := strCodes a ≤ strCodes b

instance : DecidableRel pyStrLe :=
  fun a b => inferInstanceAs (Decidable (strCodes a ≤ strCodes b))

/-- Embeds `sorted` on strings under Python's order. -/
def sortStrings (xs : List String) : List String :=
  List.insertionSort pyStrLe xs

/-- The `DELTAS_MAP` key of a collection kind. -/
def kindName : Kind → String
  | .edges => "edges"
  | .families => "families"
  | .family_proxies => "family_proxies"
  | .jobs => "jobs"
  | .tasks => "tasks"
  | .task_proxies => "task_proxies"

/-- A dict has pairwise distinct keys. -/
def NodupKeys {α : Type} (m : KVMap α) : Prop := (m.map (·.1)).Nodup

/-- The claim's multiset contribution of the child families: the sum of
each child family's `state_totals` at a state, reading the updated view
when present, else the store view. -/
def famTotalsSum (fam_node : Ent) (fp_updated fp_data : KVMap Ent)
    (s : String) : Nat :=
  (fam_node.child_families.map (fun cid =>
    match resolveNode fp_updated fp_data cid with
    | some c => counterGet (mapMerge [] c.state_totals) s
    | none => 0)).sum

/-- Sum of the child families' `is_held_total`. -/
def famHeldSum (fam_node : Ent) (fp_updated fp_data : KVMap Ent) : Nat :=
  (fam_node.child_families.map (fun cid =>
    match resolveNode fp_updated fp_data cid with
    | some c => c.is_held_total
    | none => 0)).sum

/-- Number of child task proxies whose (set) state equals `s`. -/
def taskStateCount (fam_node : Ent) (tp_updated tp_data : KVMap Ent)
    (s : String) : Nat :=
  fam_node.child_tasks.countP (fun tid =>
    match resolveNode tp_updated tp_data tid with
    | some tp => decide (tp.state = s ∧ tp.state ≠ "")
    | none => false)

/-- Number of held child task proxies. -/
def taskHeldCount (fam_node : Ent) (tp_updated tp_data : KVMap Ent) : Nat :=
  fam_node.child_tasks.countP (fun tid =>
    match resolveNode tp_updated tp_data tid with
    | some tp => tp.is_held
    | none => false)

/-- The store-consistency invariant of claim C7: no id is simultaneously
in the `added` buffer and in the authoritative store, for any kind. -/
def addedStoreDisjoint (st : MgrState) : Prop :=
  ∀ (k : Kind) (i : String),
    kvMem i (st.added.get k) → ¬ kvMem i (st.data.get k)


/-- Total weight of the entries of a pair list at a key. -/
def sumAt (ps : List (String × Nat)) (k : String) : Nat :=
  (ps.map (fun p => if p.1 = k then p.2 else 0)).sum


/-! ## Projection lemmas for the generic field operations -/

theorem getStr_clearField (o : Ent) (g f : FieldName) :
    (o.clearField g).getStr f = if g = f then "" else o.getStr f := by
  cases g <;> cases f <;> rfl

theorem getRep_clearField (o : Ent) (g f : FieldName) :
    (o.clearField g).getRep f = if g = f then [] else o.getRep f := by
  cases g <;> cases f <;> rfl

theorem getNat_clearField (o : Ent) (g f : FieldName) :
    (o.clearField g).getNat f = if g = f then 0 else o.getNat f := by
  cases g <;> cases f <;> rfl

theorem getBool_clearField (o : Ent) (g f : FieldName) :
    (o.clearField g).getBool f = if g = f then false else o.getBool f := by
  cases g <;> cases f <;> rfl

theorem stateTotals_clearField (o : Ent) (g : FieldName) :
    (o.clearField g).state_totals =
      if g = FieldName.state_totals then [] else o.state_totals := by
  cases g <;> rfl

theorem mem_allFields (f : FieldName) : f ∈ allFields := by
  cases f <;> decide

/-- Unfolded form of one clear-loop iteration. -/
def clearStep (k : Kind) (e : Ent) (acc : Ent) (f : FieldName) : Ent :=
  if e.isSet f ∧ f ∈ clearMap k then acc.clearField f else acc

theorem clearPass_eq_foldl (k : Kind) (e old : Ent) :
    clearPass k e old = allFields.foldl (clearStep k e) old := rfl

/-- Generic characterization of the clear loop: a projection of the
folded result equals its default when the projected field is set in the
delta, in the kind's clear set, and among the iterated fields; otherwise
it is untouched. -/
theorem foldClear_proj {b : Type} (k : Kind) (e : Ent) (fld : FieldName)
    (get : Ent → b) (dfl : b)
    (h1 : ∀ (o : Ent) (g : FieldName), g ≠ fld → get (o.clearField g) = get o)
    (h2 : ∀ o : Ent, get (o.clearField fld) = dfl)
    (fs : List FieldName) (o : Ent) :
    get (fs.foldl (clearStep k e) o) =
      if ((e.isSet fld : Prop) ∧ fld ∈ clearMap k) ∧ fld ∈ fs
      then dfl else get o := by
  induction fs generalizing o with
  | nil => simp
  | cons g fs ih =>
    simp only [List.foldl_cons, ih]
    by_cases hC : (e.isSet fld : Prop) ∧ fld ∈ clearMap k
    · by_cases hfs : fld ∈ fs
      · simp [hC, hfs, List.mem_cons]
      · by_cases hgf : g = fld
        · subst hgf
          simp [clearStep, hC, hfs, h2, List.mem_cons]
        · have hmem : fld ∈ g :: fs ↔ False := by
            simp [List.mem_cons, hfs]
            exact fun h => hgf h.symm
          simp only [hC, hfs, and_false, if_neg, false_and, true_and, hmem,
            iff_false, if_false]
          unfold clearStep
          by_cases hgg : (e.isSet g : Prop) ∧ g ∈ clearMap k
          · rw [if_pos hgg, h1 o g hgf]
          · rw [if_neg hgg]
    · have l1 : ¬ (((e.isSet fld : Prop) ∧ fld ∈ clearMap k) ∧ fld ∈ fs) :=
        fun h => hC h.1
      have l2 : ¬ (((e.isSet fld : Prop) ∧ fld ∈ clearMap k) ∧ fld ∈ g :: fs) :=
        fun h => hC h.1
      rw [if_neg l1, if_neg l2]
      unfold clearStep
      by_cases hgg : (e.isSet g : Prop) ∧ g ∈ clearMap k
      · rw [if_pos hgg]
        by_cases hgf : g = fld
        · subst hgf; exact absurd hgg hC
        · exact h1 o g hgf
      · rw [if_neg hgg]

theorem getStr_clearPass (k : Kind) (e old : Ent) (f : FieldName) :
    (clearPass k e old).getStr f =
      if ((e.isSet f : Prop) ∧ f ∈ clearMap k) ∧ f ∈ allFields
      then "" else old.getStr f :=
  foldClear_proj k e f (fun o => o.getStr f) ""
    (fun o g hg => by simp [getStr_clearField, hg])
    (fun o => by simp [getStr_clearField]) allFields old

theorem getRep_clearPass (k : Kind) (e old : Ent) (f : FieldName) :
    (clearPass k e old).getRep f =
      if ((e.isSet f : Prop) ∧ f ∈ clearMap k) ∧ f ∈ allFields
      then [] else old.getRep f :=
  foldClear_proj k e f (fun o => o.getRep f) []
    (fun o g hg => by simp [getRep_clearField, hg])
    (fun o => by simp [getRep_clearField]) allFields old

theorem getNat_clearPass (k : Kind) (e old : Ent) (f : FieldName) :
    (clearPass k e old).getNat f =
      if ((e.isSet f : Prop) ∧ f ∈ clearMap k) ∧ f ∈ allFields
      then 0 else old.getNat f :=
  foldClear_proj k e f (fun o => o.getNat f) 0
    (fun o g hg => by simp [getNat_clearField, hg])
    (fun o => by simp [getNat_clearField]) allFields old

theorem getBool_clearPass (k : Kind) (e old : Ent) (f : FieldName) :
    (clearPass k e old).getBool f =
      if ((e.isSet f : Prop) ∧ f ∈ clearMap k) ∧ f ∈ allFields
      then false else old.getBool f :=
  foldClear_proj k e f (fun o => o.getBool f) false
    (fun o g hg => by simp [getBool_clearField, hg])
    (fun o => by simp [getBool_clearField]) allFields old

theorem stateTotals_clearPass (k : Kind) (e old : Ent) :
    (clearPass k e old).state_totals =
      if ((e.isSet .state_totals : Prop) ∧ FieldName.state_totals ∈ clearMap k)
          ∧ FieldName.state_totals ∈ allFields
      then [] else old.state_totals :=
  foldClear_proj k e .state_totals (fun o => o.state_totals) []
    (fun o g hg => by simp [stateTotals_clearField, hg])
    (fun o => by simp [stateTotals_clearField]) allFields old

theorem getRep_mergeFrom (d s : Ent) (f : FieldName) :
    (d.mergeFrom s).getRep f = d.getRep f ++ s.getRep f := by
  cases f <;> rfl

theorem getStr_mergeFrom (d s : Ent) (f : FieldName) :
    (d.mergeFrom s).getStr f =
      if s.getStr f ≠ "" then s.getStr f else d.getStr f := by
  cases f <;> rfl

theorem getNat_mergeFrom (d s : Ent) (f : FieldName) :
    (d.mergeFrom s).getNat f =
      if s.getNat f ≠ 0 then s.getNat f else d.getNat f := by
  cases f <;> rfl

theorem getBool_mergeFrom (d s : Ent) (f : FieldName) :
    (d.mergeFrom s).getBool f = (d.getBool f || s.getBool f) := by
  cases f <;> rfl

theorem stateTotals_mergeFrom (d s : Ent) :
    (d.mergeFrom s).state_totals = mapMerge d.state_totals s.state_totals :=
  rfl

/-! ## Claim C1 -/

/-- C1: for every non-workflow kind and every entity in a delta's updated
list whose id is present in the target store, `apply_delta` first clears
exactly those fields of the stored entity that are both in the kind's
clear-before-merge set (`family_proxies`: state_totals, states;
`task_proxies`: prerequisites, outputs; all other kinds: none) and set in
the delta entity, then merges so that repeated fields append and singular
fields are overwritten; kinds with an empty clear set merge without
clearing.  Stated per field over the result of the clear-then-merge
composite, plus the store-update step for a present id. -/
theorem C1_apply_delta_updated_clear_merge (k : Kind) (e old : Ent) :
    (∀ f, fieldKind f = FieldKind.rList →
        (applyUpdatedElement k e old).getRep f =
          (if f ∈ clearMap k ∧ (e.isSet f : Prop) then [] else old.getRep f)
            ++ e.getRep f)
  ∧ (∀ f, fieldKind f = FieldKind.sStr →
        (applyUpdatedElement k e old).getStr f =
          if e.getStr f ≠ "" then e.getStr f else old.getStr f)
  ∧ (∀ f, fieldKind f = FieldKind.sNat →
        (applyUpdatedElement k e old).getNat f =
          if e.getNat f ≠ 0 then e.getNat f else old.getNat f)
  ∧ (∀ f, fieldKind f = FieldKind.sBool →
        (applyUpdatedElement k e old).getBool f =
          (old.getBool f || e.getBool f))
  ∧ ((applyUpdatedElement k e old).state_totals =
        mapMerge
          (if FieldName.state_totals ∈ clearMap k ∧
              (e.isSet .state_totals : Prop)
           then [] else old.state_totals)
          e.state_totals)
  ∧ (∀ (m : KVMap Ent) (logs : List String) (old' : Ent),
        kvLookup e.id m = some old' →
        applyUpdatedStep k (m, logs) e =
          (kvInsert e.id (applyUpdatedElement k e old') m, logs)) := by
  refine ⟨?_, ?_, ?_, ?_, ?_, ?_⟩
  · intro f hf
    simp only [applyUpdatedElement]
    rw [getRep_mergeFrom, getRep_clearPass]
    simp [mem_allFields, and_comm]
  · intro f hf
    simp only [applyUpdatedElement]
    rw [getStr_mergeFrom, getStr_clearPass]
    by_cases hs : e.getStr f = ""
    · have hns : ¬ (e.isSet f : Prop) := by simp [Ent.isSet, hf, hs]
      simp [hs, hns]
    · simp [hs]
  · intro f hf
    simp only [applyUpdatedElement]
    rw [getNat_mergeFrom, getNat_clearPass]
    by_cases hs : e.getNat f = 0
    · have hns : ¬ (e.isSet f : Prop) := by simp [Ent.isSet, hf, hs]
      simp [hs, hns]
    · simp [hs]
  · intro f hf
    simp only [applyUpdatedElement]
    rw [getBool_mergeFrom, getBool_clearPass]
    have hcm : f ∉ clearMap k := by
      cases f <;> first
        | exact absurd hf (by decide)
        | (cases k <;> decide)
    simp [hcm]
  · simp only [applyUpdatedElement]
    rw [stateTotals_mergeFrom, stateTotals_clearPass]
    simp [mem_allFields, and_comm]
  · intro m logs old' h
    simp [applyUpdatedStep, h]

/-- Witness for C1 at a concrete kind, delta element and stored entity:
an updated `task_proxies` delta with non-empty `prerequisites` (a
clear-before-merge field) replaces the stored list, while `jobs`
(not in the clear set) appends, and the scalar `state` is overwritten. -/
theorem C1_apply_delta_updated_clear_merge_witness :
    (applyUpdatedElement .task_proxies
        { id := "w|1|a", prerequisites := ["p2"], jobs := ["j2"],
          state := "running" }
        { id := "w|1|a", prerequisites := ["p1"], jobs := ["j1"],
          state := "waiting" }).prerequisites = ["p2"]
  ∧ (applyUpdatedElement .task_proxies
        { id := "w|1|a", prerequisites := ["p2"], jobs := ["j2"],
          state := "running" }
        { id := "w|1|a", prerequisites := ["p1"], jobs := ["j1"],
          state := "waiting" }).jobs = ["j1", "j2"]
  ∧ (applyUpdatedElement .task_proxies
        { id := "w|1|a", prerequisites := ["p2"], jobs := ["j2"],
          state := "running" }
        { id := "w|1|a", prerequisites := ["p1"], jobs := ["j1"],
          state := "waiting" }).state = "running" := by
  have h := C1_apply_delta_updated_clear_merge .task_proxies
    { id := "w|1|a", prerequisites := ["p2"], jobs := ["j2"],
      state := "running" }
    { id := "w|1|a", prerequisites := ["p1"], jobs := ["j1"],
      state := "waiting" }
  refine ⟨?_, ?_, ?_⟩
  · have h1 := h.1 .prerequisites (by decide)
    simpa [Ent.getRep, Ent.isSet, clearMap] using h1
  · have h1 := h.1 .jobs (by decide)
    simpa [Ent.getRep, Ent.isSet, clearMap] using h1
  · have h2 := h.2.1 .state (by decide)
    simpa [Ent.getStr] using h2

/-! ## Claim C3 -/

/-- C3: when an `updated` entry references an id absent from the target
map, `apply_delta` logs (at debug level, modelled by the log list),
skips the entry leaving the target map unchanged, and continues with the
remaining entries of the batch. -/
theorem C3_apply_delta_missing_update_target (k : Kind) (e : Ent)
    (m : KVMap Ent) (logs : List String) (rest : List Ent)
    (habsent : kvLookup e.id m = none) :
    applyUpdatedStep k (m, logs) e = (m, logs ++ [e.id])
  ∧ applyUpdatedFold k (m, logs) (e :: rest) =
      applyUpdatedFold k (m, logs ++ [e.id]) rest := by
  constructor
  · simp [applyUpdatedStep, habsent]
  · simp [applyUpdatedFold, applyUpdatedStep, habsent]

/-- Witness for C3: an updated entry for an id not in the store is
logged and skipped, and the rest of the batch is still applied. -/
theorem C3_apply_delta_missing_update_target_witness :
    applyUpdatedStep .task_proxies ([("w|1|b", { id := "w|1|b" })], [])
        { id := "w|1|a", state := "running" }
      = ([("w|1|b", { id := "w|1|b" })], ["w|1|a"])
  ∧ applyUpdatedFold .task_proxies ([("w|1|b", { id := "w|1|b" })], [])
        [{ id := "w|1|a", state := "running" },
         { id := "w|1|b", state := "running" }]
      = applyUpdatedFold .task_proxies
          ([("w|1|b", { id := "w|1|b" })], ["w|1|a"])
          [{ id := "w|1|b", state := "running" }] :=
  C3_apply_delta_missing_update_target .task_proxies
    { id := "w|1|a", state := "running" }
    [("w|1|b", { id := "w|1|b" })] []
    [{ id := "w|1|b", state := "running" }]
    (by decide)

/-! ## Dictionary lemmas -/

theorem kvLookup_insert {α : Type} (k k' : String) (v : α) (m : KVMap α) :
    kvLookup k' (kvInsert k v m) = if k' = k then some v else kvLookup k' m := by
  induction m with
  | nil =>
    by_cases h : k' = k
    · subst h; simp [kvInsert, kvLookup]
    · have h2 : ¬ k = k' := fun hh => h hh.symm
      simp [kvInsert, kvLookup, h, h2]
  | cons p m ih =>
    obtain ⟨a, b⟩ := p
    by_cases hak : a = k
    · subst hak
      by_cases hk : k' = a
      · subst hk; simp [kvInsert, kvLookup]
      · have h2 : ¬ a = k' := fun hh => hk hh.symm
        simp [kvInsert, kvLookup, hk, h2]
    · by_cases hk : a = k'
      · subst hk
        have h2 : ¬ a = k := hak
        simp [kvInsert, kvLookup, hak, h2]
      · simp [kvInsert, kvLookup, hak, hk, ih]

theorem kvMem_insert {α : Type} (k k' : String) (v : α) (m : KVMap α) :
    (kvMem k' (kvInsert k v m) : Prop) ↔ k' = k ∨ (kvMem k' m : Prop) := by
  simp only [kvMem, kvLookup_insert]
  by_cases h : k' = k <;> simp [h]

theorem kvLookup_update {α : Type} (k k' : String) (f : α → α) (m : KVMap α) :
    kvLookup k' (kvUpdate k f m) =
      if k' = k then Option.map f (kvLookup k m) else kvLookup k' m := by
  induction m with
  | nil => by_cases h : k' = k <;> simp [kvUpdate, kvLookup, h]
  | cons p m ih =>
    obtain ⟨a, b⟩ := p
    by_cases hak : a = k
    · subst hak
      by_cases hk : k' = a
      · subst hk; simp [kvUpdate, kvLookup]
      · have h2 : ¬ a = k' := fun hh => hk hh.symm
        simp [kvUpdate, kvLookup, hk, h2]
    · by_cases hk : a = k'
      · subst hk
        have h2 : ¬ a = k := hak
        simp [kvUpdate, kvLookup, hak, h2]
      · simp [kvUpdate, kvLookup, hak, hk, ih]

theorem kvMem_update {α : Type} (k k' : String) (f : α → α) (m : KVMap α) :
    kvMem k' (kvUpdate k f m) = kvMem k' m := by
  simp only [kvMem, kvLookup_update]
  by_cases h : k' = k
  · subst h; cases kvLookup k' m <;> simp
  · simp [h]

theorem kvLookup_append {α : Type} (k : String) (m1 m2 : KVMap α) :
    kvLookup k (m1 ++ m2) =
      match kvLookup k m1 with
      | some v => some v
      | none => kvLookup k m2 := by
  induction m1 with
  | nil => simp [kvLookup]
  | cons p m ih =>
    obtain ⟨a, b⟩ := p
    by_cases h : a = k <;> simp [kvLookup, h, ih]

theorem kvLookup_eq_none_iff {α : Type} (k : String) (m : KVMap α) :
    kvLookup k m = none ↔ k ∉ m.map (·.1) := by
  induction m with
  | nil => simp [kvLookup]
  | cons p m ih =>
    obtain ⟨a, b⟩ := p
    by_cases h : a = k
    · subst h; simp [kvLookup]
    · have h2 : ¬ k = a := fun hh => h hh.symm
      simp [kvLookup, h, h2, ih]

theorem kvLookup_isSome_iff {α : Type} (k : String) (m : KVMap α) :
    (kvLookup k m).isSome ↔ k ∈ m.map (·.1) := by
  rw [← Decidable.not_not (p := k ∈ m.map (·.1)), ← kvLookup_eq_none_iff]
  cases kvLookup k m <;> simp

theorem keys_kvInsert {α : Type} (k : String) (v : α) (m : KVMap α) :
    (kvInsert k v m).map (·.1) =
      if (kvMem k m : Prop) then m.map (·.1) else m.map (·.1) ++ [k] := by
  induction m with
  | nil => simp [kvInsert, kvMem, kvLookup]
  | cons p m ih =>
    obtain ⟨a, b⟩ := p
    by_cases h : a = k
    · subst h; simp [kvInsert, kvMem, kvLookup]
    · have hcons : (kvMem k ((a, b) :: m) : Prop) ↔ (kvMem k m : Prop) := by
        simp [kvMem, kvLookup, h]
      have hstep : kvInsert k v ((a, b) :: m) = (a, b) :: kvInsert k v m := by
        simp [kvInsert, h]
      rw [hstep, List.map_cons, ih]
      by_cases hm : (kvMem k m : Prop)
      · rw [if_pos hm, if_pos (hcons.mpr hm), List.map_cons]
      · rw [if_neg hm, if_neg (fun hh => hm (hcons.mp hh)), List.map_cons,
          List.cons_append]

theorem nodupKeys_kvInsert {α : Type} (k : String) (v : α) (m : KVMap α)
    (h : NodupKeys m) : NodupKeys (kvInsert k v m) := by
  unfold NodupKeys at *
  rw [keys_kvInsert]
  by_cases hm : (kvMem k m : Prop)
  · simpa [hm] using h
  · have hk : k ∉ m.map (·.1) := by
      rw [← kvLookup_isSome_iff]
      simp only [kvMem] at hm
      simpa using hm
    simp [hm, List.nodup_append, h, hk]

theorem keys_kvUpdate {α : Type} (k : String) (f : α → α) (m : KVMap α) :
    (kvUpdate k f m).map (·.1) = m.map (·.1) := by
  induction m with
  | nil => simp [kvUpdate]
  | cons p m ih =>
    obtain ⟨a, b⟩ := p
    by_cases hk : a = k <;> simp_all [kvUpdate, List.map_cons]

theorem nodupKeys_kvUpdate {α : Type} (k : String) (f : α → α) (m : KVMap α)
    (h : NodupKeys m) : NodupKeys (kvUpdate k f m) := by
  unfold NodupKeys at *
  rw [keys_kvUpdate]; exact h

/-! ## Counter lemmas -/

theorem counterGet_counterInc (c : KVMap Nat) (k : String) (n : Nat)
    (k' : String) :
    counterGet (counterInc c k n) k' =
      counterGet c k' + if k' = k then n else 0 := by
  unfold counterInc
  cases h : kvLookup k c with
  | some v =>
    simp only [counterGet, kvLookup_insert]
    by_cases hk : k' = k
    · subst hk; simp [h]
    · simp [hk]
  | none =>
    simp only [counterGet, kvLookup_append]
    by_cases hk : k' = k
    · subst hk; simp [h, kvLookup]
    · have h2 : ¬ k = k' := fun hh => hk hh.symm
      cases hc : kvLookup k' c <;> simp [hk, kvLookup, hc, h2]

theorem nodupKeys_counterInc (c : KVMap Nat) (k : String) (n : Nat)
    (h : NodupKeys c) : NodupKeys (counterInc c k n) := by
  unfold counterInc
  cases hl : kvLookup k c with
  | some v => exact nodupKeys_kvInsert k (v + n) c h
  | none =>
    unfold NodupKeys at *
    have hk : k ∉ c.map (·.1) := (kvLookup_eq_none_iff k c).mp hl
    simp [List.nodup_append, h, hk]

theorem keys_keepPositive_sublist (c : KVMap Nat) :
    ((keepPositive c).map (·.1)).Sublist (c.map (·.1)) :=
  (List.filter_sublist c).map (·.1)

theorem nodupKeys_keepPositive (c : KVMap Nat) (h : NodupKeys c) :
    NodupKeys (keepPositive c) :=
  h.sublist (keys_keepPositive_sublist c)

theorem counterGet_keepPositive (c : KVMap Nat) (h : NodupKeys c)
    (k : String) : counterGet (keepPositive c) k = counterGet c k := by
  induction c with
  | nil => rfl
  | cons p c ih =>
    obtain ⟨a, v⟩ := p
    have hnd : NodupKeys c := (List.nodup_cons.mp h).2
    have ha : a ∉ c.map (·.1) := (List.nodup_cons.mp h).1
    by_cases hv : 0 < v
    · have hfc : keepPositive ((a, v) :: c) = (a, v) :: keepPositive c := by
        simp [keepPositive, hv]
      rw [hfc]
      by_cases hk : a = k
      · subst hk; simp [counterGet, kvLookup]
      · have hl : counterGet ((a, v) :: keepPositive c) k =
            counterGet (keepPositive c) k := by
          simp [counterGet, kvLookup, hk]
        have hr : counterGet ((a, v) :: c) k = counterGet c k := by
          simp [counterGet, kvLookup, hk]
        rw [hl, hr, ih hnd]
    · have hv0 : v = 0 := by omega
      subst hv0
      have hfc : keepPositive ((a, (0 : Nat)) :: c) = keepPositive c := by
        simp [keepPositive]
      rw [hfc, ih hnd]
      by_cases hk : a = k
      · subst hk
        have hnone : kvLookup a c = none := (kvLookup_eq_none_iff a c).mpr ha
        simp [counterGet, kvLookup, hnone]
      · simp [counterGet, kvLookup, hk]

theorem counterGet_incFold (ps : List (String × Nat)) (c : KVMap Nat)
    (k : String) :
    counterGet (ps.foldl (fun acc p => counterInc acc p.1 p.2) c) k =
      counterGet c k + sumAt ps k := by
  induction ps generalizing c with
  | nil => simp [sumAt]
  | cons p ps ih =>
    simp only [List.foldl_cons, ih, counterGet_counterInc, sumAt,
      List.map_cons, List.sum_cons]
    by_cases hk : k = p.1
    · rw [if_pos hk, if_pos hk.symm]; omega
    · rw [if_neg hk, if_neg (fun hh => hk hh.symm)]; omega

theorem nodupKeys_incFold (ps : List (String × Nat)) (c : KVMap Nat)
    (h : NodupKeys c) :
    NodupKeys (ps.foldl (fun acc p => counterInc acc p.1 p.2) c) := by
  induction ps generalizing c with
  | nil => exact h
  | cons p ps ih => exact ih _ (nodupKeys_counterInc c p.1 p.2 h)

theorem sumAt_eq_zero_of_not_mem (ps : List (String × Nat)) (k : String)
    (h : k ∉ ps.map (·.1)) : sumAt ps k = 0 := by
  induction ps with
  | nil => rfl
  | cons p ps ih =>
    simp only [List.map_cons, List.mem_cons] at h
    push_neg at h
    have h1 : ¬ p.1 = k := fun hh => h.1 hh.symm
    have h2 : sumAt ps k = 0 := ih h.2
    show (if p.1 = k then p.2 else 0) +
      (ps.map (fun q => if q.1 = k then q.2 else 0)).sum = 0
    rw [if_neg h1, Nat.zero_add]
    exact h2

theorem sumAt_eq_counterGet (ps : List (String × Nat)) (k : String)
    (h : NodupKeys ps) : sumAt ps k = counterGet ps k := by
  induction ps with
  | nil => rfl
  | cons p ps ih =>
    obtain ⟨a, v⟩ := p
    have hnd : NodupKeys ps := (List.nodup_cons.mp h).2
    have ha : a ∉ ps.map (·.1) := (List.nodup_cons.mp h).1
    by_cases hk : a = k
    · subst hk
      have hz : sumAt ps a = 0 := sumAt_eq_zero_of_not_mem ps a ha
      show (if a = a then v else 0) +
        (ps.map (fun q => if q.1 = a then q.2 else 0)).sum = _
      rw [if_pos rfl]
      have hz' : (ps.map (fun q => if q.1 = a then q.2 else 0)).sum = 0 := hz
      rw [hz']
      simp [counterGet, kvLookup]
    · show (if a = k then v else 0) +
        (ps.map (fun q => if q.1 = k then q.2 else 0)).sum = _
      rw [if_neg hk, Nat.zero_add]
      have hr : counterGet ((a, v) :: ps) k = counterGet ps k := by
        simp [counterGet, kvLookup, hk]
      rw [hr, ← ih hnd]
      rfl

theorem counterGet_counterIadd (c other : KVMap Nat) (k : String)
    (hc : NodupKeys c) (ho : NodupKeys other) :
    counterGet (counterIadd c other) k =
      counterGet c k + counterGet other k := by
  unfold counterIadd
  rw [counterGet_keepPositive _ (nodupKeys_incFold other c hc),
    counterGet_incFold, sumAt_eq_counterGet other k ho]

theorem nodupKeys_counterIadd (c other : KVMap Nat) (hc : NodupKeys c) :
    NodupKeys (counterIadd c other) :=
  nodupKeys_keepPositive _ (nodupKeys_incFold other c hc)

theorem pos_of_mem_counterIadd (c other : KVMap Nat) (p : String × Nat)
    (h : p ∈ counterIadd c other) : 0 < p.2 := by
  unfold counterIadd keepPositive at h
  simpa using (List.of_mem_filter h)

theorem nodupKeys_mapMerge_nil (ps : List (String × Nat)) :
    NodupKeys (mapMerge [] ps) := by
  unfold mapMerge
  have h : ∀ (c : KVMap Nat), NodupKeys c →
      NodupKeys (ps.foldl (fun acc p => kvInsert p.1 p.2 acc) c) := by
    induction ps with
    | nil => intro c hc; exact hc
    | cons p ps ih =>
      intro c hc
      exact ih _ (nodupKeys_kvInsert p.1 p.2 c hc)
  exact h [] (by simp [NodupKeys])

theorem counterGet_counterOfList (xs : List String) (k : String) :
    counterGet (counterOfList xs) k = xs.count k := by
  unfold counterOfList
  have h : ∀ (c : KVMap Nat),
      counterGet (xs.foldl (fun acc x => counterInc acc x 1) c) k =
        counterGet c k + xs.count k := by
    induction xs with
    | nil => intro c; simp
    | cons x xs ih =>
      intro c
      simp only [List.foldl_cons, ih, counterGet_counterInc, List.count_cons]
      by_cases hk : k = x
      · rw [if_pos hk]
        simp only [hk, beq_self_eq_true, if_true]
        omega
      · have h2 : ¬ x = k := fun hh => hk hh.symm
        have hb : (k == x) = false := by simp [hk]
        have hb2 : (x == k) = false := by simp [h2]
        simp only [hb, hb2, Bool.false_eq_true, if_false, if_neg hk]
        omega
  simpa [counterGet, kvLookup] using h []

theorem nodupKeys_counterOfList (xs : List String) :
    NodupKeys (counterOfList xs) := by
  unfold counterOfList
  have h : ∀ (c : KVMap Nat), NodupKeys c →
      NodupKeys (xs.foldl (fun acc x => counterInc acc x 1) c) := by
    induction xs with
    | nil => intro c hc; exact hc
    | cons x xs ih => intro c hc; exact ih _ (nodupKeys_counterInc c x 1 hc)
  exact h [] (by simp [NodupKeys])

theorem mem_keys_iff_pos (c : KVMap Nat) (hn : NodupKeys c)
    (hp : ∀ p ∈ c, 0 < p.2) (k : String) :
    k ∈ c.map (·.1) ↔ 0 < counterGet c k := by
  induction c with
  | nil => simp [counterGet, kvLookup]
  | cons p c ih =>
    obtain ⟨a, v⟩ := p
    have hnd : NodupKeys c := (List.nodup_cons.mp hn).2
    have hpc : ∀ q ∈ c, 0 < q.2 := fun q hq => hp q (List.mem_cons_of_mem _ hq)
    by_cases hk : a = k
    · subst hk
      have hv : 0 < v := hp (a, v) (List.mem_cons_self _ _)
      simp [counterGet, kvLookup, hv]
    · have h2 : ¬ k = a := fun hh => hk hh.symm
      have hg : counterGet ((a, v) :: c) k = counterGet c k := by
        simp [counterGet, kvLookup, hk]
      rw [List.map_cons, hg]
      simp only [List.mem_cons]
      rw [← ih hnd hpc]
      simp [h2]

/-! ## Kind-indexed access lemmas -/

theorem deltasGet_set (ds : Deltas) (k1 k2 : Kind) (d : Delta) :
    (ds.set k1 d).get k2 = if k1 = k2 then d else ds.get k2 := by
  cases k1 <;> cases k2 <;> simp [Deltas.set, Deltas.get]

theorem deltasGet_setWorkflow (ds : Deltas) (w : WDelta) (k : Kind) :
    Deltas.get { ds with workflow := w } k = ds.get k := by
  cases k <;> rfl

theorem mem_kindOrder (k : Kind) : k ∈ kindOrder := by
  cases k <;> decide

theorem nodup_kindOrder : kindOrder.Nodup := by decide

/-! ## Checksum-phase characterization -/

theorem checksumStep_data (t : String) (st : MgrState) (k : Kind) :
    (checksumStep t st k).data = st.data := by
  unfold checksumStep; split <;> rfl

theorem checksumStep_get_ne (t : String) (st : MgrState) (k g : Kind)
    (h : g ≠ k) : (checksumStep t st g).deltas.get k = st.deltas.get k := by
  unfold checksumStep
  split
  · simp [deltasGet_set, h]
  · rfl

theorem csFold_data (t : String) (ks : List Kind) (st : MgrState) :
    ((ks.foldl (checksumStep t) st)).data = st.data := by
  induction ks generalizing st with
  | nil => rfl
  | cons g ks ih => simp [List.foldl_cons, ih, checksumStep_data]

theorem csFold_get_notmem (t : String) (ks : List Kind) (st : MgrState)
    (k : Kind) (h : k ∉ ks) :
    (ks.foldl (checksumStep t) st).deltas.get k = st.deltas.get k := by
  induction ks generalizing st with
  | nil => rfl
  | cons g ks ih =>
    simp only [List.mem_cons] at h
    push_neg at h
    simp only [List.foldl_cons]
    rw [ih _ h.2, checksumStep_get_ne t st k g (fun hh => h.1 hh.symm)]

theorem csFold_get_mem (t : String) (ks : List Kind) (st : MgrState)
    (k : Kind) (hmem : k ∈ ks) (hnd : ks.Nodup) :
    (ks.foldl (checksumStep t) st).deltas.get k =
      if deltaNonEmpty (st.deltas.get k) then
        { (st.deltas.get k) with
            time := t,
            checksum := generate_checksum (checksumStrings k st.data) }
      else st.deltas.get k := by
  induction ks generalizing st with
  | nil => cases hmem
  | cons g ks ih =>
    have hgk : g ∉ ks := (List.nodup_cons.mp hnd).1
    have hnd' : ks.Nodup := (List.nodup_cons.mp hnd).2
    simp only [List.foldl_cons]
    by_cases hk : g = k
    · subst hk
      rw [csFold_get_notmem t ks _ g hgk]
      unfold checksumStep
      split
      · simp [deltasGet_set]
      · rfl
    · have hm : k ∈ ks := by
        rcases List.mem_cons.mp hmem with h | h
        · exact absurd h.symm hk
        · exact h
      rw [ih _ hm hnd', checksumStep_get_ne t st k g hk, checksumStep_data]

theorem checksumPhase_deltas_get_eq_fold (st : MgrState) (t : String)
    (k : Kind) :
    (checksumPhase st t).deltas.get k =
      (kindOrder.foldl (checksumStep t) st).deltas.get k := by
  simp only [checksumPhase]
  by_cases hw : (wdeltaNonEmpty
      (kindOrder.foldl (checksumStep t) st).deltas.workflow : Prop)
  · rw [if_pos hw]
    exact deltasGet_setWorkflow _ _ _
  · rw [if_neg hw]

theorem checksumPhase_get (st : MgrState) (t : String) (k : Kind) :
    (checksumPhase st t).deltas.get k =
      if deltaNonEmpty (st.deltas.get k) then
        { (st.deltas.get k) with
            time := t,
            checksum := generate_checksum (checksumStrings k st.data) }
      else st.deltas.get k := by
  rw [checksumPhase_deltas_get_eq_fold]
  exact csFold_get_mem t kindOrder st k (mem_kindOrder k) nodup_kindOrder

/-! ## Checksum determinism -/

theorem generate_checksum_perm (l1 l2 : List PyStr) (h : l1.Perm l2) :
    generate_checksum l1 = generate_checksum l2 := by
  haveI hanti : IsAntisymm PyStr (· ≤ ·) :=
    ⟨fun a b h1 h2 => le_antisymm h1 h2⟩
  haveI htot : IsTotal PyStr (· ≤ ·) := ⟨fun a b => le_total a b⟩
  haveI htr : IsTrans PyStr (· ≤ ·) := ⟨fun a b c h1 h2 => le_trans h1 h2⟩
  unfold generate_checksum
  have hs : List.insertionSort (· ≤ ·) l1 = List.insertionSort (· ≤ ·) l2 := by
    apply List.eq_of_perm_of_sorted (r := (· ≤ ·))
    · exact (List.perm_insertionSort _ l1).trans
        (h.trans (List.perm_insertionSort _ l2).symm)
    · exact List.sorted_insertionSort _ l1
    · exact List.sorted_insertionSort _ l2
  rw [hs]

theorem generate_checksum_lt (l : List PyStr) :
    generate_checksum l < 2 ^ 32 :=
  Nat.mod_lt _ (by norm_num)

/-! ## Claim C2 -/

/-- C2: at finalization, every kind whose delta is non-empty gets a
checksum equal to Adler-32 of the concatenation of the lexicographically
sorted strings of the resulting store slice — the entity ids for `edges`,
the entity stamps for every other kind — masked to 32 bits
(`generate_checksum`); the checksum is invariant under permutation of the
input strings (a deterministic function of their multiset) and is a
32-bit value. -/
theorem C2_delta_checksum (st : MgrState) (t : String) (k : Kind)
    (hne : (deltaNonEmpty (st.deltas.get k) : Prop)) :
    ((checksumPhase st t).deltas.get k).checksum =
      generate_checksum (checksumStrings k st.data)
  ∧ (∀ l1 l2 : List PyStr, l1.Perm l2 →
      generate_checksum l1 = generate_checksum l2)
  ∧ generate_checksum (checksumStrings k st.data) < 2 ^ 32 := by
  refine ⟨?_, generate_checksum_perm, generate_checksum_lt _⟩
  rw [checksumPhase_get, if_pos hne]

/-- Witness for C2: a non-empty edges delta gets the checksum of the
stored edge ids, and the checksum does not depend on the order of its
input strings. -/
theorem C2_delta_checksum_witness :
    ((checksumPhase
        { deltas := { edges := { added := [{ id := "e1" }] } },
          data := { edges := [("e1", { id := "e1", stamp := "e1@t0" })] } }
        "t1").deltas.get .edges).checksum =
      generate_checksum (checksumStrings .edges
        { edges := [("e1", { id := "e1", stamp := "e1@t0" })] })
  ∧ generate_checksum [strCodes "b", strCodes "a"] =
      generate_checksum [strCodes "a", strCodes "b"] := by
  constructor
  · exact (C2_delta_checksum
      { deltas := { edges := { added := [{ id := "e1" }] } },
        data := { edges := [("e1", { id := "e1", stamp := "e1@t0" })] } }
      "t1" .edges (by decide)).1
  · exact (C2_delta_checksum
      { deltas := { edges := { added := [{ id := "e1" }] } },
        data := { edges := [("e1", { id := "e1", stamp := "e1@t0" })] } }
      "t1" .edges (by decide)).2.1 _ _ (by decide)

/-! ## Claim C5 -/

/-- C5 (code bug): `update_workflow` is meant to aggregate `state_totals`
and `is_held_total` over all root family proxies found in store and
`added`, but its fallback lookup `data.get(root_id)` consults the dict of
kind names rather than `data[FAMILY_PROXIES]`, so a root proxy resident
only in the store contributes nothing: with one stored root carrying
`state_totals = {running: 1}` and `is_held_total = 2`, the workflow
aggregate comes out empty while the claimed sum is 1. -/
theorem C5_update_workflow_drops_store_roots :
    (update_workflow "u|w" "t0" {}
        [("u|w|1|root",
          { id := "u|w|1|root", name := "root", state := "running",
            state_totals := [("running", 1)], is_held_total := 2 })]
        [] [] "running" "msg" "" "" "").state_totals = []
  ∧ (update_workflow "u|w" "t0" {}
        [("u|w|1|root",
          { id := "u|w|1|root", name := "root", state := "running",
            state_totals := [("running", 1)], is_held_total := 2 })]
        [] [] "running" "msg" "" "" "").is_held_total = 0
  ∧ rootTotalsSum
      [("u|w|1|root",
        { id := "u|w|1|root", name := "root", state := "running",
          state_totals := [("running", 1)], is_held_total := 2 })]
      [] "running" = 1 := by
  refine ⟨by decide, by decide, by decide⟩

/-! ## Claim C9 -/

/-- C9: after `clear_deltas`, every per-kind delta message is cleared,
all `added` / `updated` buffers are empty, and a subsequent
`get_publish_deltas` returns only the all-deltas aggregate with no
content. -/
theorem C9_clear_deltas_idempotent_clear (st : MgrState) :
    (∀ k, (clear_deltas st).deltas.get k = {})
  ∧ (clear_deltas st).deltas.workflow = {}
  ∧ (∀ k, (clear_deltas st).added.get k = [] ∧
        (clear_deltas st).updated.get k = [])
  ∧ (clear_deltas st).added.workflow = {}
  ∧ (clear_deltas st).updated.workflow = {}
  ∧ get_publish_deltas (clear_deltas st).deltas = [PubItem.allDelta {}] := by
  refine ⟨?_, rfl, ?_, rfl, rfl, ?_⟩
  · intro k; cases k <;> rfl
  · intro k; cases k <;> exact ⟨rfl, rfl⟩
  · show get_publish_deltas ({} : Deltas) = [PubItem.allDelta {}]
    decide

/-! ## Claim C10 -/

/-- C10 (amended): an `element_type` that is not a key of `DELTAS_MAP`
yields a fresh empty workflow delta (no exception; the function does not
write to the store), and each collection-kind key yields a delta whose
`added` holds every entity stored under that kind.  (The remaining
`DELTAS_MAP` key, `"all"`, raises instead — see the counterexample.) -/
theorem C10_get_data_elements_amended (element_type : String) (d : FlowData) :
    (¬ (deltasMapKeys.contains element_type : Prop) →
        get_data_elements element_type d = GetDataResult.wdelta {})
  ∧ (∀ k : Kind, element_type = kindName k →
        get_data_elements element_type d =
          GetDataResult.kdelta k
            { time := d.workflow.last_updated, added := kvValues (d.get k) }) := by
  constructor
  · intro h
    unfold get_data_elements
    rw [if_pos h]
  · intro k h
    subst h
    cases k <;> rfl

/-- Witness for C10: an unknown key returns the empty workflow delta; the
`edges` key returns the stored edges as `added`. -/
theorem C10_get_data_elements_witness :
    get_data_elements "bogus" { workflow := { last_updated := "t9" } } =
      GetDataResult.wdelta {}
  ∧ get_data_elements "edges" { edges := [("e1", { id := "e1" })] } =
      GetDataResult.kdelta .edges { time := "", added := [{ id := "e1" }] } := by
  constructor
  · exact (C10_get_data_elements_amended "bogus"
      { workflow := { last_updated := "t9" } }).1 (by decide)
  · exact (C10_get_data_elements_amended "edges"
      { edges := [("e1", { id := "e1" })] }).2 .edges rfl

/-- C10 counterexample: `"all"` is a key of `DELTAS_MAP` other than
`workflow`, yet `get_data_elements "all"` raises (the store has no
`"all"` slice) instead of returning a delta of the stored entities. -/
theorem C10_get_data_elements_all_raises :
    deltasMapKeys.contains "all" = true
  ∧ ("all" : String) ≠ "workflow"
  ∧ get_data_elements "all"
      { workflow := { last_updated := "t9" },
        edges := [("e1", { id := "e1" })] } = GetDataResult.err := by
  refine ⟨by decide, by decide, by decide⟩

/-! ## Claim C8 -/

theorem incrementPruneStep_drop (pool : List String)
    (e : String × List String) (q : KVMap (List String) × List String)
    (hd : (dropCond pool e : Prop)) :
    incrementPruneStep pool q e = (q.1, q.2 ++ e.1 :: e.2) := by
  unfold incrementPruneStep
  rw [if_pos hd]

theorem incrementPruneStep_keep (pool : List String)
    (e : String × List String) (q : KVMap (List String) × List String)
    (hd : ¬ (dropCond pool e : Prop)) :
    incrementPruneStep pool q e =
      (q.1 ++ [(e.1, e.2.filter (fun tp => pool.contains tp))],
       q.2 ++ e.2.filter (fun tp => ¬ pool.contains tp)) := by
  unfold incrementPruneStep
  rw [if_neg hd]
  by_cases hdiff : (e.2.filter (fun tp => ¬ pool.contains tp)).isEmpty
  · rw [if_neg (not_not_intro hdiff)]
    rw [List.isEmpty_iff] at hdiff
    have hfe : e.2.filter (fun tp => pool.contains tp) = e.2 := by
      rw [List.filter_eq_self]
      intro a ha
      have hna := List.filter_eq_nil_iff.mp hdiff a ha
      simpa using hna
    rw [hdiff, hfe, List.append_nil, Prod.mk.eta]
  · rw [if_pos (by simpa using hdiff)]

theorem incrementPruneStep_append (pool : List String)
    (e : String × List String) (q : KVMap (List String) × List String) :
    incrementPruneStep pool q e =
      (q.1 ++ (incrementPruneStep pool ([], []) e).1,
       q.2 ++ (incrementPruneStep pool ([], []) e).2) := by
  by_cases hd : (dropCond pool e : Prop)
  · rw [incrementPruneStep_drop pool e q hd,
      incrementPruneStep_drop pool e ([], []) hd]
    simp
  · rw [incrementPruneStep_keep pool e q hd,
      incrementPruneStep_keep pool e ([], []) hd]
    simp

theorem prune_fold_append (pool : List String)
    (entries : List (String × List String)) :
    ∀ (p : KVMap (List String) × List String),
      entries.foldl (incrementPruneStep pool) p =
        (p.1 ++ (entries.foldl (incrementPruneStep pool) ([], [])).1,
         p.2 ++ (entries.foldl (incrementPruneStep pool) ([], [])).2) := by
  induction entries with
  | nil => intro p; simp
  | cons e rest ih =>
    intro p
    simp only [List.foldl_cons]
    rw [ih (incrementPruneStep pool p e),
      ih (incrementPruneStep pool ([], []) e),
      incrementPruneStep_append pool e p]
    simp [List.append_assoc]

theorem incrementPrune_cons (pool : List String) (e : String × List String)
    (rest : List (String × List String)) :
    incrementPrune (e :: rest) pool =
      ((incrementPruneStep pool ([], []) e).1 ++ (incrementPrune rest pool).1,
       (incrementPruneStep pool ([], []) e).2 ++
         (incrementPrune rest pool).2) := by
  unfold incrementPrune
  simp only [List.foldl_cons]
  exact prune_fold_append pool rest (incrementPruneStep pool ([], []) e)

/-- C8: the pruning pass of `increment_graph_elements`, per entry
`(s_point, t_points)` of `edge_points`: when `s_point` is outside the
pool and `t_points` is disjoint from it, the entry is dropped and
`s_point` and all of `t_points` are scheduled for pruning; otherwise the
entry survives with exactly the pool members of `t_points` (so `s_point`
remains a key) and the out-of-pool members are scheduled.  The scheduled
set is exactly the union of these per-entry contributions. -/
theorem C8_increment_prune_spec (eps : KVMap (List String))
    (pool : List String) :
    (incrementPrune eps pool).1 =
      eps.filterMap (fun e =>
        if dropCond pool e then none
        else some (e.1, e.2.filter (fun tp => pool.contains tp)))
  ∧ (∀ p, p ∈ (incrementPrune eps pool).2 ↔
      ∃ e, e ∈ eps ∧
        ((dropCond pool e : Prop) ∧ (p = e.1 ∨ p ∈ e.2) ∨
         ¬ (dropCond pool e : Prop) ∧ p ∈ e.2 ∧ p ∉ pool)) := by
  induction eps with
  | nil => simp [incrementPrune]
  | cons e rest ih =>
    rw [incrementPrune_cons]
    constructor
    · by_cases hd : (dropCond pool e : Prop)
      · rw [incrementPruneStep_drop pool e ([], []) hd, List.filterMap_cons]
        simp only [if_pos hd, List.nil_append]
        exact ih.1
      · rw [incrementPruneStep_keep pool e ([], []) hd, List.filterMap_cons]
        simp only [if_neg hd, List.nil_append, List.cons_append]
        rw [ih.1]
    · intro p
      simp only [List.mem_append]
      rw [ih.2 p]
      by_cases hd : (dropCond pool e : Prop)
      · rw [incrementPruneStep_drop pool e ([], []) hd]
        simp only [List.nil_append]
        constructor
        · rintro (hm | hm)
          · exact ⟨e, List.mem_cons_self _ _, Or.inl ⟨hd, by simpa using hm⟩⟩
          · obtain ⟨e', he', hc⟩ := hm
            exact ⟨e', List.mem_cons_of_mem _ he', hc⟩
        · rintro ⟨e', he', hc⟩
          rcases List.mem_cons.mp he' with he1 | he1
          · subst he1
            rcases hc with ⟨_, hm⟩ | ⟨hnd, _⟩
            · exact Or.inl (by simpa using hm)
            · exact absurd hd hnd
          · exact Or.inr ⟨e', he1, hc⟩
      · rw [incrementPruneStep_keep pool e ([], []) hd]
        simp only [List.nil_append]
        constructor
        · rintro (hm | hm)
          · rw [List.mem_filter] at hm
            refine ⟨e, List.mem_cons_self _ _, Or.inr ⟨hd, hm.1, ?_⟩⟩
            simpa using hm.2
          · obtain ⟨e', he', hc⟩ := hm
            exact ⟨e', List.mem_cons_of_mem _ he', hc⟩
        · rintro ⟨e', he', hc⟩
          rcases List.mem_cons.mp he' with he1 | he1
          · subst he1
            rcases hc with ⟨hdd, _⟩ | ⟨_, hm, hnp⟩
            · exact absurd hdd hd
            · refine Or.inl ?_
              rw [List.mem_filter]
              exact ⟨hm, by simpa using hnp⟩
          · exact Or.inr ⟨e', he1, hc⟩

/-! ## Claim C4 -/

theorem famFold_spec (fp_updated fp_data : KVMap Ent) (cids : List String) :
    ∀ (c : KVMap Nat) (held : Nat), NodupKeys c →
    (∀ (s : String),
      counterGet (cids.foldl
        (fun (acc : KVMap Nat × Nat) child_id =>
          match resolveNode fp_updated fp_data child_id with
          | some child =>
              (counterIadd acc.1 (mapMerge [] child.state_totals),
               acc.2 + child.is_held_total)
          | none => acc)
        (c, held)).1 s =
      counterGet c s +
        (cids.map (fun cid =>
          match resolveNode fp_updated fp_data cid with
          | some ch => counterGet (mapMerge [] ch.state_totals) s
          | none => 0)).sum)
  ∧ (cids.foldl
        (fun (acc : KVMap Nat × Nat) child_id =>
          match resolveNode fp_updated fp_data child_id with
          | some child =>
              (counterIadd acc.1 (mapMerge [] child.state_totals),
               acc.2 + child.is_held_total)
          | none => acc)
        (c, held)).2 =
      held + (cids.map (fun cid =>
          match resolveNode fp_updated fp_data cid with
          | some ch => ch.is_held_total
          | none => 0)).sum
  ∧ NodupKeys (cids.foldl
        (fun (acc : KVMap Nat × Nat) child_id =>
          match resolveNode fp_updated fp_data child_id with
          | some child =>
              (counterIadd acc.1 (mapMerge [] child.state_totals),
               acc.2 + child.is_held_total)
          | none => acc)
        (c, held)).1 := by
  induction cids with
  | nil => intro c held hc; refine ⟨fun s => by simp, by simp, hc⟩
  | cons cid cids ih =>
    intro c held hc
    cases hres : resolveNode fp_updated fp_data cid with
    | none =>
      have hstep := ih c held hc
      refine ⟨fun s => ?_, ?_, ?_⟩
      · simp only [List.foldl_cons, hres, List.map_cons, List.sum_cons]
        rw [(hstep.1 s)]
        omega
      · simp only [List.foldl_cons, hres, List.map_cons, List.sum_cons]
        rw [hstep.2.1]
        omega
      · simp only [List.foldl_cons, hres]
        exact hstep.2.2
    | some child =>
      have hc' : NodupKeys (counterIadd c (mapMerge [] child.state_totals)) :=
        nodupKeys_counterIadd _ _ hc
      have hstep := ih (counterIadd c (mapMerge [] child.state_totals))
        (held + child.is_held_total) hc'
      refine ⟨fun s => ?_, ?_, ?_⟩
      · simp only [List.foldl_cons, hres, List.map_cons, List.sum_cons]
        rw [hstep.1 s, counterGet_counterIadd c _ s hc (nodupKeys_mapMerge_nil _)]
        omega
      · simp only [List.foldl_cons, hres, List.map_cons, List.sum_cons]
        rw [hstep.2.1]
        omega
      · simp only [List.foldl_cons, hres]
        exact hstep.2.2

theorem taskStatesFold_count (tp_updated tp_data : KVMap Ent)
    (tids : List String) (s : String) :
    ∀ (acc : List String),
      ((tids.foldl
        (fun (acc : List String) tp_id =>
          match resolveNode tp_updated tp_data tp_id with
          | some tp => if tp.state ≠ "" then acc ++ [tp.state] else acc
          | none => acc)
        acc).count s) =
      acc.count s + tids.countP (fun tid =>
        match resolveNode tp_updated tp_data tid with
        | some tp => decide (tp.state = s ∧ tp.state ≠ "")
        | none => false) := by
  induction tids with
  | nil => intro acc; simp
  | cons tid tids ih =>
    intro acc
    simp only [List.foldl_cons, List.countP_cons]
    cases hres : resolveNode tp_updated tp_data tid with
    | none => dsimp only; rw [ih]; simp
    | some tp =>
      dsimp only
      by_cases hst : tp.state = ""
      · have hpred : decide (tp.state = s ∧ tp.state ≠ "") = false := by
          simp [hst]
        rw [if_neg (not_not_intro hst), ih]
        simp [hpred]
      · rw [if_pos hst, ih, List.count_append]
        by_cases hs : tp.state = s
        · have hpred : decide (tp.state = s ∧ tp.state ≠ "") = true := by
            simp only [decide_eq_true_eq]
            exact ⟨hs, hst⟩
          have hcnt : List.count s [tp.state] = 1 := by
            simp [List.count_cons, hs]
          rw [hcnt]
          simp only [hpred, if_true]
          omega
        · have hs2 : ¬ s = tp.state := fun hh => hs hh.symm
          have hpred : decide (tp.state = s ∧ tp.state ≠ "") = false := by
            simp [hs]
          have hcnt : List.count s [tp.state] = 0 := by
            simp [List.count_cons, hs, hs2]
          rw [hcnt]
          simp only [hpred, Bool.false_eq_true, if_false]
          omega

theorem heldFold_count (tp_updated tp_data : KVMap Ent)
    (tids : List String) :
    ∀ (h0 : Nat),
      tids.foldl
        (fun (h : Nat) tp_id =>
          match resolveNode tp_updated tp_data tp_id with
          | some tp => if tp.is_held then h + 1 else h
          | none => h)
        h0 =
      h0 + tids.countP (fun tid =>
        match resolveNode tp_updated tp_data tid with
        | some tp => tp.is_held
        | none => false) := by
  induction tids with
  | nil => intro h0; simp
  | cons tid tids ih =>
    intro h0
    simp only [List.foldl_cons, List.countP_cons]
    cases hres : resolveNode tp_updated tp_data tid with
    | none => dsimp only; rw [ih]; simp
    | some tp =>
      dsimp only
      by_cases hh : tp.is_held
      · rw [if_pos hh, ih]; simp [hh]; omega
      · rw [if_neg hh, ih]
        have : (tp.is_held : Bool) = false := by
          simpa using hh
        simp [this]

theorem familyRollupCounters_spec (fam_node : Ent)
    (fp_updated fp_data tp_updated tp_data : KVMap Ent) :
    (∀ s, counterGet
        (familyRollupCounters fam_node fp_updated fp_data tp_updated tp_data).1 s =
      famTotalsSum fam_node fp_updated fp_data s +
        taskStateCount fam_node tp_updated tp_data s)
  ∧ (familyRollupCounters fam_node fp_updated fp_data tp_updated tp_data).2 =
      famHeldSum fam_node fp_updated fp_data +
        taskHeldCount fam_node tp_updated tp_data
  ∧ NodupKeys
      (familyRollupCounters fam_node fp_updated fp_data tp_updated tp_data).1
  ∧ (∀ p ∈
      (familyRollupCounters fam_node fp_updated fp_data tp_updated tp_data).1,
      0 < p.2) := by
  have hfam := famFold_spec fp_updated fp_data fam_node.child_families []
    0 (by simp [NodupKeys])
  have hts := taskStatesFold_count tp_updated tp_data fam_node.child_tasks
  have hheld := heldFold_count tp_updated tp_data fam_node.child_tasks
  simp only [familyRollupCounters]
  refine ⟨fun s => ?_, ?_, ?_, ?_⟩
  · rw [counterGet_counterIadd _ _ s hfam.2.2 (nodupKeys_counterOfList _),
      hfam.1 s, counterGet_counterOfList, hts s []]
    simp only [List.count_nil]
    have hnil : counterGet [] s = 0 := rfl
    rw [hnil]
    unfold famTotalsSum taskStateCount
    omega
  · rw [hheld, hfam.2.1]
    unfold famHeldSum taskHeldCount
    omega
  · exact nodupKeys_counterIadd _ _ hfam.2.2
  · intro p hp
    exact pos_of_mem_counterIadd _ _ p hp

/-- C4 (amended): the emitted `FamilyProxy` delta of a family flagged for
rollup carries `state_totals` equal to the multiset sum of the child
families' totals (updated view preferred, else store) plus one for each
child task proxy whose state is set; `is_held_total` equal to the child
families' hold totals plus the count of held child tasks; `is_held` true
exactly when `is_held_total > 0`; `state` the group state of the
occurring states; and `states` listing each occurring state (a state with
positive aggregate count) exactly once — in first-encounter order of the
state counter, NOT sorted. -/
theorem C4_family_rollup_delta (fp_id t : String) (fam_node : Ent)
    (fp_updated fp_data tp_updated tp_data : KVMap Ent) :
    let d := familyDeltaOf fp_id t fam_node fp_updated fp_data
      tp_updated tp_data
    (∀ s, counterGet d.state_totals s =
        famTotalsSum fam_node fp_updated fp_data s +
          taskStateCount fam_node tp_updated tp_data s)
  ∧ d.is_held_total = famHeldSum fam_node fp_updated fp_data +
        taskHeldCount fam_node tp_updated tp_data
  ∧ (d.is_held = true ↔ 0 < d.is_held_total)
  ∧ d.state = (extract_group_state d.states).getD ""
  ∧ d.states = d.state_totals.map (·.1)
  ∧ d.states.Nodup
  ∧ (∀ s, s ∈ d.states ↔ 0 < counterGet d.state_totals s) := by
  have hs := familyRollupCounters_spec fam_node fp_updated fp_data
    tp_updated tp_data
  refine ⟨fun s => hs.1 s, hs.2.1, ?_, rfl, rfl, hs.2.2.1, ?_⟩
  · simp [familyDeltaOf]
  · intro s
    exact mem_keys_iff_pos _ hs.2.2.1 hs.2.2.2 s

/-- Counterexample to C4 as stated: with two child tasks in states
`succeeded` then `failed`, the emitted `states` list is
`[succeeded, failed]` (first-encounter order), while the sorted list of
unique occurring states is `[failed, succeeded]`. -/
theorem C4_states_not_sorted :
    (familyDeltaOf "u|w|1|root" "t0"
        { id := "u|w|1|root", child_tasks := ["u|w|1|t1", "u|w|1|t2"] }
        [] [] []
        [("u|w|1|t1", { id := "u|w|1|t1", state := "succeeded" }),
         ("u|w|1|t2", { id := "u|w|1|t2", state := "failed" })]).states =
      ["succeeded", "failed"]
  ∧ sortStrings ["succeeded", "failed"] = ["failed", "succeeded"]
  ∧ (["succeeded", "failed"] : List String) ≠ ["failed", "succeeded"] := by
  refine ⟨by decide, by decide, by decide⟩


/-! ## Ghost-generation frame lemmas -/

theorem appendChildTo_mem (fp : String) (cf ct : Option String)
    (m m' : KVMap Ent) (h : appendChildTo fp cf ct m = some m') :
    ∀ i, kvMem i m' = kvMem i m := by
  unfold appendChildTo at h
  cases cf with
  | none =>
    cases ct with
    | some c =>
      simp only [Option.some.injEq] at h
      subst h
      intro i
      exact kvMem_update fp i _ m
    | none => cases h
  | some c =>
    simp only [Option.some.injEq] at h
    subst h
    intro i
    exact kvMem_update fp i _ m

theorem GF_frame (fuel : Nat) :
    ∀ (st : MgrState) (fp_id : String) (cf ct : Option String) (t : String)
      (s2 : MgrState),
    generate_ghost_family fuel st fp_id cf ct t = some s2 →
    s2.data = st.data
  ∧ s2.added.edges = st.added.edges
  ∧ s2.added.families = st.added.families
  ∧ s2.added.jobs = st.added.jobs
  ∧ s2.added.tasks = st.added.tasks
  ∧ s2.added.task_proxies = st.added.task_proxies
  ∧ (∀ i, kvMem i s2.added.family_proxies = true →
        kvMem i st.added.family_proxies = true ∨
        ¬ kvMem i st.data.family_proxies = true) := by
  induction fuel with
  | zero =>
    intro st fp_id cf ct t s2 h
    cases h
  | succ fuel ih =>
    intro st fp_id cf ct t s2 h
    rw [generate_ghost_family] at h
    by_cases h1 : kvMem fp_id st.data.family_proxies = true
    · rw [if_pos h1] at h
      cases happ : appendChildTo fp_id cf ct
          (kvUpsert fp_id { id := fp_id } (fun x => x)
            st.updated.family_proxies) with
      | none => rw [happ] at h; exact Option.noConfusion h
      | some upd' =>
        simp only [happ, Option.some.injEq] at h
        subst h
        exact ⟨rfl, rfl, rfl, rfl, rfl, rfl, fun i hi => Or.inl hi⟩
    · rw [if_neg h1] at h
      by_cases h2 : kvMem fp_id st.added.family_proxies = true
      · rw [if_pos h2] at h
        cases happ : appendChildTo fp_id cf ct st.added.family_proxies with
        | none => rw [happ] at h; exact Option.noConfusion h
        | some m =>
          simp only [happ, Option.some.injEq] at h
          subst h
          refine ⟨rfl, rfl, rfl, rfl, rfl, rfl, fun i hi => ?_⟩
          have hi2 : kvMem i m = true := hi
          rw [appendChildTo_mem fp_id cf ct _ m happ i] at hi2
          exact Or.inl hi2
      · rw [if_neg h2] at h
        cases hsplit : pySplit fp_id with
        | nil => simp only [hsplit] at h; cases h
        | cons a l1 =>
          cases l1 with
          | nil => simp only [hsplit] at h; cases h
          | cons b l2 =>
            cases l2 with
            | nil => simp only [hsplit] at h; cases h
            | cons ps l3 =>
              cases l3 with
              | nil => simp only [hsplit] at h; cases h
              | cons nm l4 =>
                cases l4 with
                | cons x l5 => simp only [hsplit] at h; cases h
                | nil =>
                  simp only [hsplit] at h
                  cases hfam : kvLookup (st.workflow_id ++ ID_DELIM ++ nm)
                      (if st.data.families.isEmpty then st.added.families
                       else st.data.families) with
                  | none => simp only [hfam] at h; exact Option.noConfusion h
                  | some fam =>
                    simp only [hfam] at h
                    cases hanc : kvLookup fam.name st.ancestors with
                    | none => simp only [hanc] at h; exact Option.noConfusion h
                    | some anc =>
                      simp only [hanc] at h
                      cases hrec : (if (ghostAncIds st.workflow_id ps fam.name
                              anc).headD "" ≠ "" then
                            generate_ghost_family fuel
                              (ghostFamilyInsert st fp_id ps t fam anc)
                              ((ghostAncIds st.workflow_id ps fam.name
                                anc).headD "")
                              (some fp_id) none t
                          else
                            some (ghostFamilyInsert st fp_id ps t fam anc)) with
                      | none => simp only [hrec] at h; exact Option.noConfusion h
                      | some st4 =>
                        simp only [hrec] at h
                        have hst4 : st4.data = st.data
                            ∧ st4.added.edges = st.added.edges
                            ∧ st4.added.families = st.added.families
                            ∧ st4.added.jobs = st.added.jobs
                            ∧ st4.added.tasks = st.added.tasks
                            ∧ st4.added.task_proxies = st.added.task_proxies
                            ∧ (∀ i, kvMem i st4.added.family_proxies = true →
                                kvMem i st.added.family_proxies = true ∨
                                i = fp_id ∨
                                ¬ kvMem i st.data.family_proxies = true) := by
                          by_cases hfp : (ghostAncIds st.workflow_id ps
                              fam.name anc).headD "" ≠ ""
                          · rw [if_pos hfp] at hrec
                            have hf := ih _ _ _ _ _ _ hrec
                            refine ⟨hf.1, hf.2.1, hf.2.2.1, hf.2.2.2.1,
                              hf.2.2.2.2.1, hf.2.2.2.2.2.1, fun i hi => ?_⟩
                            rcases hf.2.2.2.2.2.2 i hi with hm | hm
                            · have hm2 : kvMem i (kvInsert fp_id
                                  (ghostFpDelta st.workflow_id fp_id ps t
                                    fam anc)
                                  st.added.family_proxies) = true := hm
                              rcases (kvMem_insert _ _ _ _).mp hm2 with
                                he | hmm
                              · exact Or.inr (Or.inl he)
                              · exact Or.inl hmm
                            · have hm2 : ¬ kvMem i st.data.family_proxies
                                  = true := hm
                              exact Or.inr (Or.inr hm2)
                          · rw [if_neg hfp] at hrec
                            simp only [Option.some.injEq] at hrec
                            subst hrec
                            refine ⟨rfl, rfl, rfl, rfl, rfl, rfl,
                              fun i hi => ?_⟩
                            have hi2 : kvMem i (kvInsert fp_id
                                (ghostFpDelta st.workflow_id fp_id ps t
                                  fam anc)
                                st.added.family_proxies) = true := hi
                            rcases (kvMem_insert _ _ _ _).mp hi2 with he | hmm
                            · exact Or.inr (Or.inl he)
                            · exact Or.inl hmm
                        cases happ : appendChildTo fp_id cf ct
                            st4.added.family_proxies with
                        | none => rw [happ] at h; exact Option.noConfusion h
                        | some m =>
                          simp only [happ, Option.some.injEq] at h
                          subst h
                          refine ⟨hst4.1, hst4.2.1, hst4.2.2.1,
                            hst4.2.2.2.1, hst4.2.2.2.2.1,
                            hst4.2.2.2.2.2.1, fun i hi => ?_⟩
                          have hi2 : kvMem i m = true := hi
                          rw [appendChildTo_mem fp_id cf ct _ m happ i] at hi2
                          rcases hst4.2.2.2.2.2.2 i hi2 with hm | hm | hm
                          · exact Or.inl hm
                          · subst hm
                            exact Or.inr h1
                          · exact Or.inr hm

theorem GT_frame (fuel : Nat) (st : MgrState) (t_id tp_id ps t : String)
    (s2 : MgrState)
    (h : generate_ghost_task fuel st t_id tp_id ps t = some s2) :
    s2.data = st.data
  ∧ s2.added.edges = st.added.edges
  ∧ s2.added.families = st.added.families
  ∧ s2.added.jobs = st.added.jobs
  ∧ s2.added.tasks = st.added.tasks
  ∧ (∀ i, kvMem i s2.added.task_proxies = true →
        kvMem i st.added.task_proxies = true ∨
        ¬ kvMem i st.data.task_proxies = true)
  ∧ (∀ i, kvMem i s2.added.family_proxies = true →
        kvMem i st.added.family_proxies = true ∨
        ¬ kvMem i st.data.family_proxies = true)
  ∧ (¬ (kvMem tp_id st.data.task_proxies = true ∨
        kvMem tp_id st.added.task_proxies = true) →
        kvMem tp_id s2.added.task_proxies = true) := by
  unfold generate_ghost_task at h
  by_cases hmem : (kvMem tp_id st.data.task_proxies = true ∨
      kvMem tp_id st.added.task_proxies = true)
  · rw [if_pos hmem] at h
    simp only [Option.some.injEq] at h
    subst h
    exact ⟨rfl, rfl, rfl, rfl, rfl, fun i hi => Or.inl hi,
      fun i hi => Or.inl hi, fun hc => absurd hmem hc⟩
  · rw [if_neg hmem] at h
    cases htd : (match kvLookup t_id st.data.tasks with
                 | some td => some td
                 | none => kvLookup t_id st.added.tasks) with
    | none => simp only [htd] at h; exact Option.noConfusion h
    | some taskdef =>
      simp only [htd] at h
      cases hanc : kvLookup taskdef.name st.ancestors with
      | none => simp only [hanc] at h; exact Option.noConfusion h
      | some anc =>
        simp only [hanc] at h
        cases hids : ghostAncIds st.workflow_id ps taskdef.name anc with
        | nil => simp only [hids] at h; exact Option.noConfusion h
        | cons fp rest =>
          simp only [hids] at h
          have hf := GF_frame fuel
            (ghostTaskInsert st t_id tp_id ps t taskdef anc)
            fp none (some tp_id) t s2 h
          have hntp : ¬ kvMem tp_id st.data.task_proxies = true :=
            fun hc => hmem (Or.inl hc)
          refine ⟨hf.1, hf.2.1, hf.2.2.1, hf.2.2.2.1, hf.2.2.2.2.1,
            fun i hi => ?_, fun i hi => ?_, fun _ => ?_⟩
          · have htp : s2.added.task_proxies =
                kvInsert tp_id
                  (ghostTProxy st.workflow_id tp_id t_id ps t taskdef anc)
                  st.added.task_proxies := hf.2.2.2.2.2.1
            rw [htp] at hi
            rcases (kvMem_insert _ _ _ _).mp hi with he | hm
            · subst he
              exact Or.inr hntp
            · exact Or.inl hm
          · have hff := hf.2.2.2.2.2.2 i hi
            exact hff
          · have htp : s2.added.task_proxies =
                kvInsert tp_id
                  (ghostTProxy st.workflow_id tp_id t_id ps t taskdef anc)
                  st.added.task_proxies := hf.2.2.2.2.2.1
            rw [htp]
            exact (kvMem_insert _ _ _ _).mpr (Or.inl rfl)

/-! ## Claim C6 -/

/-- C6: when the task-proxy id is already present in the store's
`task_proxies` map or in the `added` buffer, `generate_ghost_task`
returns immediately with the state unchanged; consequently a second call
with the same arguments after any successful call leaves the resulting
state unchanged (calling twice equals calling once). -/
theorem C6_generate_ghost_task_idempotent (fuel : Nat) (st : MgrState)
    (t_id tp_id ps t : String) :
    ((kvMem tp_id st.data.task_proxies = true ∨
        kvMem tp_id st.added.task_proxies = true) →
      generate_ghost_task fuel st t_id tp_id ps t = some st)
  ∧ (∀ s2, generate_ghost_task fuel st t_id tp_id ps t = some s2 →
      generate_ghost_task fuel s2 t_id tp_id ps t = some s2) := by
  constructor
  · intro hmem
    unfold generate_ghost_task
    rw [if_pos hmem]
  · intro s2 h
    by_cases hmem : (kvMem tp_id st.data.task_proxies = true ∨
        kvMem tp_id st.added.task_proxies = true)
    · have he : generate_ghost_task fuel st t_id tp_id ps t = some st := by
        unfold generate_ghost_task
        rw [if_pos hmem]
      rw [he] at h
      simp only [Option.some.injEq] at h
      subst h
      exact he
    · have hf := GT_frame fuel st t_id tp_id ps t s2 h
      have hm2 : kvMem tp_id s2.added.task_proxies = true :=
        hf.2.2.2.2.2.2.2 hmem
      unfold generate_ghost_task
      rw [if_pos (Or.inr hm2)]

/-- Witness for C6: an id already in the `added` buffer is returned
unchanged, and on a fresh state where generation succeeds, the second
call returns the produced state unchanged. -/
theorem C6_generate_ghost_task_idempotent_witness :
    generate_ghost_task 3
      { workflow_id := "u|w",
        added := { task_proxies := [("u|w|1|a", { id := "u|w|1|a" })] } }
      "u|w|a" "u|w|1|a" "1" "t0" =
      some
        { workflow_id := "u|w",
          added := { task_proxies := [("u|w|1|a", { id := "u|w|1|a" })] } }
  ∧ (match generate_ghost_task 5
        { workflow_id := "u|w",
          added :=
            { tasks := [("u|w|a", { id := "u|w|a", name := "a", depth := 2 })],
              families :=
                [("u|w|FAM", { id := "u|w|FAM", name := "FAM", depth := 1 }),
                 ("u|w|root", { id := "u|w|root", name := "root" })] },
          ancestors :=
            [("a", ["a", "FAM", "root"]), ("FAM", ["FAM", "root"]),
             ("root", ["root"])] }
        "u|w|a" "u|w|1|a" "1" "t0" with
      | some s2 =>
          generate_ghost_task 5 s2 "u|w|a" "u|w|1|a" "1" "t0" = some s2
      | none => False) := by
  constructor
  · exact (C6_generate_ghost_task_idempotent 3
      { workflow_id := "u|w",
        added := { task_proxies := [("u|w|1|a", { id := "u|w|1|a" })] } }
      "u|w|a" "u|w|1|a" "1" "t0").1 (Or.inr (by decide))
  · cases hres : generate_ghost_task 5
        { workflow_id := "u|w",
          added :=
            { tasks := [("u|w|a", { id := "u|w|a", name := "a", depth := 2 })],
              families :=
                [("u|w|FAM", { id := "u|w|FAM", name := "FAM", depth := 1 }),
                 ("u|w|root", { id := "u|w|root", name := "root" })] },
          ancestors :=
            [("a", ["a", "FAM", "root"]), ("FAM", ["FAM", "root"]),
             ("root", ["root"])] }
        "u|w|a" "u|w|1|a" "1" "t0" with
    | none => exact absurd hres (by decide)
    | some s2 =>
      exact (C6_generate_ghost_task_idempotent 5
        { workflow_id := "u|w",
          added :=
            { tasks := [("u|w|a", { id := "u|w|a", name := "a", depth := 2 })],
              families :=
                [("u|w|FAM", { id := "u|w|FAM", name := "FAM", depth := 1 }),
                 ("u|w|root", { id := "u|w|root", name := "root" })] },
          ancestors :=
            [("a", ["a", "FAM", "root"]), ("FAM", ["FAM", "root"]),
             ("root", ["root"])] }
        "u|w|a" "u|w|1|a" "1" "t0").2 s2 hres

/-! ## Claim C7 -/

/-- C7 (amended): throughout the accumulation phase the `added` buffer is
disjoint from the authoritative store for every kind: ghost generation
inserts into `added` only ids absent from both store and buffer, so both
`generate_ghost_task` and `generate_ghost_family` preserve the
disjointness invariant.  (The invariant does NOT hold at every point
between two clears: `apply_deltas`, which runs before `clear_deltas`,
copies `added` entities into the store without clearing the buffer — see
the counterexample.) -/
theorem C7_ghost_generation_preserves_disjointness (fuel : Nat)
    (st : MgrState) (t_id tp_id ps t fp : String) (cf ct : Option String)
    (hdisj : addedStoreDisjoint st) :
    (∀ s2, generate_ghost_task fuel st t_id tp_id ps t = some s2 →
        addedStoreDisjoint s2)
  ∧ (∀ s2, generate_ghost_family fuel st fp cf ct t = some s2 →
        addedStoreDisjoint s2) := by
  constructor
  · intro s2 h
    have hf := GT_frame fuel st t_id tp_id ps t s2 h
    intro k i hmem
    rw [hf.1]
    cases k with
    | edges =>
      have hm : kvMem i st.added.edges = true := by
        have : kvMem i s2.added.edges = true := hmem
        rwa [hf.2.1] at this
      exact hdisj .edges i hm
    | families =>
      have hm : kvMem i st.added.families = true := by
        have : kvMem i s2.added.families = true := hmem
        rwa [hf.2.2.1] at this
      exact hdisj .families i hm
    | jobs =>
      have hm : kvMem i st.added.jobs = true := by
        have : kvMem i s2.added.jobs = true := hmem
        rwa [hf.2.2.2.1] at this
      exact hdisj .jobs i hm
    | tasks =>
      have hm : kvMem i st.added.tasks = true := by
        have : kvMem i s2.added.tasks = true := hmem
        rwa [hf.2.2.2.2.1] at this
      exact hdisj .tasks i hm
    | task_proxies =>
      have hm : kvMem i s2.added.task_proxies = true := hmem
      rcases hf.2.2.2.2.2.1 i hm with hadd | hnd
      · exact hdisj .task_proxies i hadd
      · exact hnd
    | family_proxies =>
      have hm : kvMem i s2.added.family_proxies = true := hmem
      rcases hf.2.2.2.2.2.2.1 i hm with hadd | hnd
      · exact hdisj .family_proxies i hadd
      · exact hnd
  · intro s2 h
    have hf := GF_frame fuel st fp cf ct t s2 h
    intro k i hmem
    rw [hf.1]
    cases k with
    | edges =>
      have hm : kvMem i st.added.edges = true := by
        have : kvMem i s2.added.edges = true := hmem
        rwa [hf.2.1] at this
      exact hdisj .edges i hm
    | families =>
      have hm : kvMem i st.added.families = true := by
        have : kvMem i s2.added.families = true := hmem
        rwa [hf.2.2.1] at this
      exact hdisj .families i hm
    | jobs =>
      have hm : kvMem i st.added.jobs = true := by
        have : kvMem i s2.added.jobs = true := hmem
        rwa [hf.2.2.2.1] at this
      exact hdisj .jobs i hm
    | tasks =>
      have hm : kvMem i st.added.tasks = true := by
        have : kvMem i s2.added.tasks = true := hmem
        rwa [hf.2.2.2.2.1] at this
      exact hdisj .tasks i hm
    | task_proxies =>
      have hm : kvMem i st.added.task_proxies = true := by
        have : kvMem i s2.added.task_proxies = true := hmem
        rwa [hf.2.2.2.2.2.1] at this
      exact hdisj .task_proxies i hm
    | family_proxies =>
      have hm : kvMem i s2.added.family_proxies = true := hmem
      rcases hf.2.2.2.2.2.2 i hm with hadd | hnd
      · exact hdisj .family_proxies i hadd
      · exact hnd

/-- Witness for C7: on an initially disjoint state, a successful ghost
task generation yields a state that still satisfies the disjointness
invariant. -/
theorem C7_ghost_generation_preserves_disjointness_witness :
    (match generate_ghost_task 5
        { workflow_id := "u|w",
          added :=
            { tasks := [("u|w|a", { id := "u|w|a", name := "a", depth := 2 })],
              families :=
                [("u|w|FAM", { id := "u|w|FAM", name := "FAM", depth := 1 }),
                 ("u|w|root", { id := "u|w|root", name := "root" })] },
          ancestors :=
            [("a", ["a", "FAM", "root"]), ("FAM", ["FAM", "root"]),
             ("root", ["root"])] }
        "u|w|a" "u|w|1|a" "1" "t0" with
      | some s2 => addedStoreDisjoint s2
      | none => False) := by
  have hdisj : addedStoreDisjoint
      { workflow_id := "u|w",
        added :=
          { tasks := [("u|w|a", { id := "u|w|a", name := "a", depth := 2 })],
            families :=
              [("u|w|FAM", { id := "u|w|FAM", name := "FAM", depth := 1 }),
               ("u|w|root", { id := "u|w|root", name := "root" })] },
        ancestors :=
          [("a", ["a", "FAM", "root"]), ("FAM", ["FAM", "root"]),
           ("root", ["root"])] } := by
    intro k i hm
    cases k <;> simp [kvMem, kvLookup, FlowData.get]
  cases hres : generate_ghost_task 5
      { workflow_id := "u|w",
        added :=
          { tasks := [("u|w|a", { id := "u|w|a", name := "a", depth := 2 })],
            families :=
              [("u|w|FAM", { id := "u|w|FAM", name := "FAM", depth := 1 }),
               ("u|w|root", { id := "u|w|root", name := "root" })] },
        ancestors :=
          [("a", ["a", "FAM", "root"]), ("FAM", ["FAM", "root"]),
           ("root", ["root"])] }
      "u|w|a" "u|w|1|a" "1" "t0" with
  | none => exact absurd hres (by decide)
  | some s2 =>
    exact (C7_ghost_generation_preserves_disjointness 5
      { workflow_id := "u|w",
        added :=
          { tasks := [("u|w|a", { id := "u|w|a", name := "a", depth := 2 })],
            families :=
              [("u|w|FAM", { id := "u|w|FAM", name := "FAM", depth := 1 }),
               ("u|w|root", { id := "u|w|root", name := "root" })] },
        ancestors :=
          [("a", ["a", "FAM", "root"]), ("FAM", ["FAM", "root"]),
           ("root", ["root"])] }
      "u|w|a" "u|w|1|a" "1" "t0" "" none none hdisj).1 s2 hres

/-- Counterexample to C7 as stated (disjointness at EVERY point between
two clears): `apply_deltas` — which runs inside the window, before
`clear_deltas` — applies the `added` buffer to the store without
emptying the buffer, so immediately afterwards the edge id is present in
both `added` and the store. -/
theorem C7_overlap_after_apply_deltas :
    ((apply_deltas
        { workflow_id := "u|w",
          added := { edges := [("u|w|A.1|B.1", { id := "u|w|A.1|B.1" })] } }
        false "t0").map
      (fun s2 => kvMem "u|w|A.1|B.1" s2.data.edges &&
        kvMem "u|w|A.1|B.1" s2.added.edges)) = some true := by
  decide
